import Mathlib

/-!
# Verification of the Limit-Order-Book and Market-Making Simulator

A shallow embedding, in Lean 4, of the core of the simulator:

* `src/lob/types.py` — the `Side`, `OrderType`, `Order` and `Trade` records;
* `src/lob/book.py` — the price-time-priority limit order book
  (`LimitOrderBook`) with its matching algorithm;
* `src/lob/orders.py` — the `OrderFactory` id generator;
* `src/strategies/market_maker.py` — the market-making agent's quoting and
  position accounting;
* `src/sim/engine.py` — the deterministic skeleton of the event-driven
  simulator (book seeding, the market-maker quote-refresh handler, the event
  dispatch loop).

Python floats are modelled by exact rationals (`ℚ`); Python's `round`
(banker's rounding, half to even) is modelled by `pyRound` below.  Machine
integers are modelled by `ℕ` / `ℤ`.  The source stores each book side as a
dict price → deque plus an ascending sorted price list (bids: best at the
end; asks: best at the front).  Here a side is the equivalent association
list of (price, FIFO queue) pairs ordered *best price first* — i.e. asks
ascending exactly as in the source, and bids in reverse source order
(descending) so that for both sides the best level is the head.
-/

set_option linter.unusedVariables false

namespace LOBSim

/-- `Side` enum from `src/lob/types.py`. -/
inductive Side where
  | BID
  | ASK
deriving DecidableEq, Repr

/-- `Side.opposite` from `src/lob/types.py`. -/
def Side.opposite : Side → Side
  | .BID => .ASK
  | .ASK => .BID

/-- `OrderType` enum from `src/lob/types.py`. -/
inductive OrderType where
  | LIMIT
  | MARKET
deriving DecidableEq, Repr

/-- `Order` dataclass from `src/lob/types.py`.  `qty` is the remaining
quantity, mutated in place by matching in the source; here the updated record
is passed explicitly.  `price` is `none` for market orders. -/
structure Order where
  order_id : String
  timestamp : ℚ
  side : Side
  order_type : OrderType
  qty : ℕ
  price : Option ℚ := none
  owner : String := "FLOW"
deriving DecidableEq, Repr

/-- `Trade` dataclass from `src/lob/types.py`. -/
structure Trade where
  timestamp : ℚ
  price : ℚ
  qty : ℕ
  taker_order_id : String
  maker_order_id : String
  taker_owner : String
  maker_owner : String
  taker_side : Side
deriving DecidableEq, Repr

/-- `OrderFactory` from `src/lob/orders.py`.  The source field `prefix` is a
Lean keyword and is called `tag` here; `counter` is `itertools.count(start)`. -/
structure OrderFactory where
  tag : String := "ORD"
  counter : ℕ := 1
deriving DecidableEq, Repr

/-- `OrderFactory.next_id`: returns the id `f"{prefix}-{next(self._counter)}"`
together with the advanced factory. -/
def OrderFactory.nextId (f : OrderFactory) : String × OrderFactory :=
  (f.tag ++ "-" ++ toString f.counter, { f with counter := f.counter + 1 })

/-- `OrderFactory.limit` from `src/lob/orders.py`. -/
def OrderFactory.limit (f : OrderFactory) (timestamp : ℚ) (side : Side)
    (price : ℚ) (qty : ℕ) (owner : String) : Order × OrderFactory :=
  let (oid, f') := f.nextId
  ({ order_id := oid, timestamp := timestamp, side := side,
     order_type := .LIMIT, qty := qty, price := some price, owner := owner }, f')

/-- `OrderFactory.market` from `src/lob/orders.py`. -/
def OrderFactory.market (f : OrderFactory) (timestamp : ℚ) (side : Side)
    (qty : ℕ) (owner : String) : Order × OrderFactory :=
  let (oid, f') := f.nextId
  ({ order_id := oid, timestamp := timestamp, side := side,
     order_type := .MARKET, qty := qty, price := none, owner := owner }, f')

/-! ## Python rounding

`round(x)` in Python rounds to the nearest integer, ties to the even
integer; `round(x, 10)` rounds to 10 decimal places the same way.  Both are
used by the source (`_round_to_tick`, `_seed_book`) on values that are exact
here, so they are modelled exactly over `ℚ`. -/

/-- Python `round(x)` on an exact value: nearest integer, ties to even. -/
def pyRound (x : ℚ) : ℤ :=
  let f := ⌊x⌋
  let r := x - f
  if r < 1/2 then f
  else if 1/2 < r then f + 1
  else if Even f then f else f + 1

/-- Python `round(x, 10)` on an exact value: nearest multiple of `10⁻¹⁰`,
ties to even. -/
def roundTo10 (x : ℚ) : ℚ :=
  (pyRound (x * 10 ^ 10) : ℚ) / 10 ^ 10

/-- `MarketMaker._round_to_tick` / `OrderFlowModel._round_to_tick`:
`round(round(value / tick_size) * tick_size, 10)`. -/
def roundToTick (tick value : ℚ) : ℚ :=
  roundTo10 ((pyRound (value / tick) : ℚ) * tick)

/-! ## The limit order book (`src/lob/book.py`) -/

/-- One price level: the price and its FIFO queue (front = oldest). -/
abbrev Level := ℚ × List Order

/-- Entry of the id → (side, price, order) index `_order_index`.  Only the
fields of the aliased order that the source ever reads through the index
(`owner`, for `open_orders`) are kept beside the side and price. -/
structure IndexEntry where
  order_id : String
  side : Side
  price : ℚ
  owner : String
deriving DecidableEq, Repr

/-- `LimitOrderBook` state.  `bids` and `asks` hold the price levels with the
best level first (asks ascending as in the source's `_ask_prices`; bids are
the reverse of the source's ascending `_bid_prices`, whose best is at the
end).  `index` is `_order_index` in insertion order. -/
structure Book where
  bids : List Level := []
  asks : List Level := []
  index : List IndexEntry := []
deriving DecidableEq, Repr

/-- The prices of a list of levels, best first. -/
def levelPrices (ls : List Level) : List ℚ := ls.map Prod.fst

/-- `LimitOrderBook.best_bid`: the highest bid price, `None` if no bids. -/
def Book.bestBid (b : Book) : Option ℚ := b.bids.head?.map Prod.fst

/-- `LimitOrderBook.best_ask`: the lowest ask price, `None` if no asks. -/
def Book.bestAsk (b : Book) : Option ℚ := b.asks.head?.map Prod.fst

/-- `LimitOrderBook.mid_price`: average of best bid and ask when both exist. -/
def Book.midPrice (b : Book) : Option ℚ :=
  match b.bestBid, b.bestAsk with
  | some bb, some ba => some ((bb + ba) / 2)
  | _, _ => none

/-- `LimitOrderBook.spread`: best ask minus best bid when both exist. -/
def Book.spread (b : Book) : Option ℚ :=
  match b.bestBid, b.bestAsk with
  | some bb, some ba => some (ba - bb)
  | _, _ => none

/-- Total quantity of a queue of orders. -/
def queueQty (q : List Order) : ℕ := (q.map Order.qty).sum

/-- `LimitOrderBook.top_depth`: resting quantity at the best level of each
side (0 when the side is empty). -/
def Book.topDepth (b : Book) : ℕ × ℕ :=
  (match b.bids.head? with | some l => queueQty l.2 | none => 0,
   match b.asks.head? with | some l => queueQty l.2 | none => 0)

/-- `LimitOrderBook.open_orders(owner)`: ids in the index, optionally
filtered by owner tag, in index (insertion) order. -/
def Book.openOrders (b : Book) (owner : Option String) : List String :=
  match owner with
  | none => b.index.map IndexEntry.order_id
  | some w => (b.index.filter (fun e => decide (e.owner = w))).map IndexEntry.order_id

/-- `LimitOrderBook._is_marketable`. -/
def Book.isMarketable (b : Book) (o : Order) : Bool :=
  match o.order_type with
  | .MARKET => true
  | .LIMIT =>
    match o.side with
    | .BID =>
      match b.bestAsk, o.price with
      | some bestA, some p => decide (bestA ≤ p)
      | _, _ => false
    | .ASK =>
      match b.bestBid, o.price with
      | some bestB, some p => decide (p ≤ bestB)
      | _, _ => false

/-- The negation of the early-break test of `_match`'s outer loop: may the
taker trade at level price `p`?  A `MARKET` taker always may; a `LIMIT` bid
breaks when its price is below `p`, a `LIMIT` ask when its price is above. -/
def priceCrosses (taker : Order) (p : ℚ) : Bool :=
  match taker.order_type with
  | .MARKET => true
  | .LIMIT =>
    match taker.price with
    | none => true
    | some lp =>
      match taker.side with
      | .BID => decide (p ≤ lp)
      | .ASK => decide (lp ≤ p)

/-- The `Trade` record built at each fill of `_match`. -/
def mkTrade (taker maker : Order) (price : ℚ) (fillQty : ℕ) : Trade :=
  { timestamp := taker.timestamp
    price := price
    qty := fillQty
    taker_order_id := taker.order_id
    maker_order_id := maker.order_id
    taker_owner := taker.owner
    maker_owner := maker.owner
    taker_side := taker.side }

/-- Result of running `_match`'s inner loop on one price level's queue. -/
structure QueueFill where
  takerQty : ℕ
  queue : List Order
  trades : List Trade
  removed : List String
deriving DecidableEq, Repr

/-- The inner `while queue and taker.qty > 0` loop of
`LimitOrderBook._match`: fill the taker against the FIFO queue at level price
`price`.  `tq` is the taker's remaining quantity.  Returns the taker's new
remaining quantity, the remaining queue, the trades in order, and the ids of
fully filled makers (popped from `_order_index` by the source). -/
def fillQueue (taker : Order) (price : ℚ) (tq : ℕ) : List Order → QueueFill
  | [] => ⟨tq, [], [], []⟩
  | maker :: rest =>
    if tq = 0 then ⟨tq, maker :: rest, [], []⟩
    else
      let fill := min tq maker.qty
      let t := mkTrade taker maker price fill
      if maker.qty - fill = 0 then
        let r := fillQueue taker price (tq - fill) rest
        ⟨r.takerQty, r.queue, t :: r.trades, maker.order_id :: r.removed⟩
      else
        ⟨tq - fill, { maker with qty := maker.qty - fill } :: rest, [t], []⟩

/-- Result of running `_match`'s outer loop over a side's levels. -/
structure LevelsFill where
  takerQty : ℕ
  levels : List Level
  trades : List Trade
  removed : List String
deriving DecidableEq, Repr

/-- The outer `while taker.qty > 0` loop of `LimitOrderBook._match`, walking
the opposing levels best price first.  A level whose queue empties is removed
(`_remove_price_level`); a level only partially consumed stops the walk
(the taker is exhausted there). -/
def matchLevels (taker : Order) (tq : ℕ) : List Level → LevelsFill
  | [] => ⟨tq, [], [], []⟩
  | (p, q) :: rest =>
    if tq = 0 then ⟨tq, (p, q) :: rest, [], []⟩
    else if priceCrosses taker p then
      let f := fillQueue taker p tq q
      if f.queue = [] then
        let r := matchLevels taker f.takerQty rest
        ⟨r.takerQty, r.levels, f.trades ++ r.trades, f.removed ++ r.removed⟩
      else
        ⟨f.takerQty, (p, f.queue) :: rest, f.trades, f.removed⟩
    else ⟨tq, (p, q) :: rest, [], []⟩

/-- Remove the given ids from the index, mirroring the source's
`self._order_index.pop(maker.order_id, None)` calls (first occurrence each). -/
def removeIds (idx : List IndexEntry) (ids : List String) : List IndexEntry :=
  ids.foldl (fun acc i => acc.eraseP (fun e => decide (e.order_id = i))) idx

/-- `LimitOrderBook._match`: dispatch the level walk to the side opposite the
taker.  Returns the updated book, the taker's remaining quantity, and the
trades. -/
def Book.matchOrder (b : Book) (taker : Order) : Book × ℕ × List Trade :=
  match taker.side with
  | .BID =>
    let r := matchLevels taker taker.qty b.asks
    ({ b with asks := r.levels, index := removeIds b.index r.removed },
     r.takerQty, r.trades)
  | .ASK =>
    let r := matchLevels taker taker.qty b.bids
    ({ b with bids := r.levels, index := removeIds b.index r.removed },
     r.takerQty, r.trades)

/-- Insert a resting order into a side's level list kept best price first:
append to the queue of an existing level of the same price, else create a new
level in order (`insort` on the sorted price list in the source).  `better`
is `(· > ·)` for bids and `(· < ·)` for asks. -/
def insertOrderAt (better : ℚ → ℚ → Bool) (p : ℚ) (o : Order) :
    List Level → List Level
  | [] => [(p, [o])]
  | (q, os) :: rest =>
    if p = q then (q, os ++ [o]) :: rest
    else if better p q then (p, [o]) :: (q, os) :: rest
    else (q, os) :: insertOrderAt better p o rest

/-- `LimitOrderBook._add_resting`.  The source raises `ValueError` for a
price-less order; that is a construction contract violation (limit orders
always carry a price), modelled as a no-op here and never reached. -/
def Book.addResting (b : Book) (o : Order) : Book :=
  match o.price with
  | none => b
  | some p =>
    let e : IndexEntry :=
      { order_id := o.order_id, side := o.side, price := p, owner := o.owner }
    match o.side with
    | .BID => { b with bids := insertOrderAt (fun x y => decide (y < x)) p o b.bids,
                       index := b.index ++ [e] }
    | .ASK => { b with asks := insertOrderAt (fun x y => decide (x < y)) p o b.asks,
                       index := b.index ++ [e] }

/-- `LimitOrderBook.add_order`: match a market or marketable limit order,
then rest any positive remainder of a limit order.  Returns the updated
book, the order's remaining quantity (the source mutates `order.qty`), and
the trades produced. -/
def Book.addOrder (b : Book) (o : Order) : Book × ℕ × List Trade :=
  let m :=
    if o.order_type = .MARKET ∨ b.isMarketable o then b.matchOrder o
    else (b, o.qty, [])
  let b' := m.1
  let remQty := m.2.1
  let trades := m.2.2
  let b'' :=
    if o.order_type = .LIMIT ∧ 0 < remQty then
      b'.addResting { o with qty := remQty }
    else b'
  (b'', remQty, trades)

/-- `LimitOrderBook._remove_price_level`: drop the level with this price from
the side (the source pops the dict entry and bisects it out of the sorted
price list). -/
def Book.removePriceLevel (b : Book) (side : Side) (p : ℚ) : Book :=
  match side with
  | .BID => { b with bids := b.bids.eraseP (fun l => decide (l.1 = p)) }
  | .ASK => { b with asks := b.asks.eraseP (fun l => decide (l.1 = p)) }

/-- Replace the queue of the level with price `p` on the given side. -/
def Book.setQueue (b : Book) (side : Side) (p : ℚ) (q : List Order) : Book :=
  match side with
  | .BID => { b with bids := b.bids.map (fun l => if l.1 = p then (l.1, q) else l) }
  | .ASK => { b with asks := b.asks.map (fun l => if l.1 = p then (l.1, q) else l) }

/-- `LimitOrderBook.cancel`: true iff the id is found and removed; the index
entry is dropped in every found case, and an emptied level is removed. -/
def Book.cancel (b : Book) (oid : String) : Book × Bool :=
  match (b.index.find? (fun e => decide (e.order_id = oid))) with
  | none => (b, false)
  | some e =>
    let levels := match e.side with | .BID => b.bids | .ASK => b.asks
    match (levels.find? (fun l => decide (l.1 = e.price))).map Prod.snd with
    | none => ({ b with index := b.index.eraseP (fun x => decide (x.order_id = oid)) }, false)
    | some q =>
      if q.any (fun o => decide (o.order_id = oid)) then
        let q' := q.eraseP (fun o => decide (o.order_id = oid))
        let b1 := b.setQueue e.side e.price q'
        let b2 := { b1 with index := b1.index.eraseP (fun x => decide (x.order_id = oid)) }
        let b3 := if q'.isEmpty then b2.removePriceLevel e.side e.price else b2
        (b3, true)
      else
        ({ b with index := b.index.eraseP (fun x => decide (x.order_id = oid)) }, false)

/-! ## The market-making agent (`src/strategies/market_maker.py`) -/

/-- `MarketMakerConfig` dataclass. -/
structure MarketMakerConfig where
  half_spread_ticks : ℤ := 1
  quote_qty : ℕ := 3
  inventory_skew : ℚ := 2/1000
deriving DecidableEq, Repr

/-- One entry of `MarketMaker.fills` (a dict in the source): the timestamp is
filled in afterwards by the engine's `_process_trades`. -/
structure FillRec where
  timestamp : Option ℚ
  side : Side
  mm_side : ℤ
  price : ℚ
  qty : ℕ
deriving DecidableEq, Repr

/-- `MarketMaker` dataclass state.  `active_order_ids` is a Python `set` of
at most two ids; it is modelled as a list in insertion order. -/
structure MarketMaker where
  config : MarketMakerConfig
  tick_size : ℚ
  inventory : ℤ := 0
  cash : ℚ := 0
  initial_cash : ℚ := 0
  avg_entry_price : ℚ := 0
  realized_pnl : ℚ := 0
  active_order_ids : List String := []
  fills : List FillRec := []
deriving DecidableEq, Repr

/-- The pre-clamp quote prices of `MarketMaker.make_quotes`:
`bid = round_to_tick(mid - half_spread - skew)`,
`ask = round_to_tick(mid + half_spread - skew)`. -/
def MarketMaker.rawQuotePrices (mm : MarketMaker) (mid : ℚ) : ℚ × ℚ :=
  let half_spread := (mm.config.half_spread_ticks : ℚ) * mm.tick_size
  let skew := mm.config.inventory_skew * (mm.inventory : ℚ)
  (roundToTick mm.tick_size (mid - half_spread - skew),
   roundToTick mm.tick_size (mid + half_spread - skew))

/-- The clamped quote prices of `MarketMaker.make_quotes`: the bid is capped
at `best_ask - tick`, the ask floored at `best_bid + tick` (each rounded to
tick), when those sides exist. -/
def MarketMaker.clampedQuotePrices (mm : MarketMaker) (mid : ℚ)
    (bestB bestA : Option ℚ) : ℚ × ℚ :=
  let (bid0, ask0) := mm.rawQuotePrices mid
  let bid1 := match bestA with
    | none => bid0
    | some a => min bid0 (roundToTick mm.tick_size (a - mm.tick_size))
  let ask1 := match bestB with
    | none => ask0
    | some bb => max ask0 (roundToTick mm.tick_size (bb + mm.tick_size))
  (bid1, ask1)

/-- The final quote prices of `MarketMaker.make_quotes`: if clamping
collapsed the pair (`bid_price >= ask_price`) fall back to the one-tick-wide
pair around mid. -/
def MarketMaker.quotePrices (mm : MarketMaker) (mid : ℚ)
    (bestB bestA : Option ℚ) : ℚ × ℚ :=
  let (bid1, ask1) := mm.clampedQuotePrices mid bestB bestA
  if ask1 ≤ bid1 then
    (roundToTick mm.tick_size (mid - mm.tick_size),
     roundToTick mm.tick_size (mid + mm.tick_size))
  else (bid1, ask1)

/-- `MarketMaker.make_quotes`: the bid and ask orders (owner `"MM"`, quantity
`quote_qty`) at the final quote prices. -/
def MarketMaker.makeQuotes (mm : MarketMaker) (timestamp mid : ℚ)
    (bestB bestA : Option ℚ) (f : OrderFactory) : List Order × OrderFactory :=
  let (bidP, askP) := mm.quotePrices mid bestB bestA
  let (bidOrder, f1) := f.limit timestamp .BID bidP mm.config.quote_qty "MM"
  let (askOrder, f2) := f1.limit timestamp .ASK askP mm.config.quote_qty "MM"
  ([bidOrder, askOrder], f2)

/-- `MarketMaker._update_position`: weighted-average-cost inventory
bookkeeping.  `sign` is `trade_sign` (+1 buy, −1 sell). -/
def MarketMaker.updatePosition (mm : MarketMaker) (sign : ℤ) (qty : ℕ)
    (price : ℚ) : MarketMaker :=
  if mm.inventory = 0 then
    { mm with inventory := sign * qty, avg_entry_price := price }
  else if 0 < mm.inventory * sign then
    let currentAbs := |mm.inventory|
    let newAbs := currentAbs + qty
    { mm with
      avg_entry_price :=
        (mm.avg_entry_price * (currentAbs : ℚ) + price * (qty : ℚ)) / (newAbs : ℚ)
      inventory := mm.inventory + sign * qty }
  else
    let closeQty := min |mm.inventory| (qty : ℤ)
    let realized' :=
      if 0 < mm.inventory then mm.realized_pnl + (price - mm.avg_entry_price) * closeQty
      else mm.realized_pnl + (mm.avg_entry_price - price) * closeQty
    let inv1 := mm.inventory + sign * closeQty
    let remaining := (qty : ℤ) - closeQty
    let avg1 := if inv1 = 0 then 0 else mm.avg_entry_price
    if 0 < remaining then
      { mm with realized_pnl := realized', inventory := sign * remaining,
                avg_entry_price := price }
    else
      { mm with realized_pnl := realized', inventory := inv1,
                avg_entry_price := avg1 }

/-- `MarketMaker._apply_fill`: cash moves by `−price×qty` on a buy and
`+price×qty` on a sell; then the position is updated and the fill logged
(with a `None` timestamp, set later by the engine). -/
def MarketMaker.applyFill (mm : MarketMaker) (side : Side) (price : ℚ)
    (qty : ℕ) : MarketMaker :=
  let sign : ℤ := if side = .BID then 1 else -1
  let cashDelta := if side = .BID then -(price * qty) else price * qty
  let mm1 := { mm with cash := mm.cash + cashDelta }
  let mm2 := mm1.updatePosition sign qty price
  { mm2 with fills := mm2.fills ++
      [{ timestamp := none, side := side, mm_side := sign, price := price, qty := qty }] }

/-- `MarketMaker.on_trade`: attribute the trade when this agent is taker or
maker (owner `"MM"`), otherwise do nothing. -/
def MarketMaker.onTrade (mm : MarketMaker) (t : Trade) : MarketMaker :=
  if t.taker_owner = "MM" then mm.applyFill t.taker_side t.price t.qty
  else if t.maker_owner = "MM" then mm.applyFill t.taker_side.opposite t.price t.qty
  else mm

/-- `MarketMaker.unrealized_pnl`. -/
def MarketMaker.unrealizedPnl (mm : MarketMaker) (mid : ℚ) : ℚ :=
  if mm.inventory = 0 then 0
  else if 0 < mm.inventory then (mid - mm.avg_entry_price) * (mm.inventory : ℚ)
  else (mm.avg_entry_price - mid) * (|mm.inventory| : ℚ)

/-- `MarketMaker.total_pnl`. -/
def MarketMaker.totalPnl (mm : MarketMaker) (mid : ℚ) : ℚ :=
  mm.realized_pnl + mm.unrealizedPnl mid

/-- `MarketMaker.mark_to_market`. -/
def MarketMaker.markToMarket (mm : MarketMaker) (mid : ℚ) : ℚ :=
  mm.cash + (mm.inventory : ℚ) * mid - mm.initial_cash

/-! ## The order flow model (`src/sim/arrivals.py`)

The flow model samples from a `numpy.random.Generator` seeded by the
simulator's config.  The generator itself is external library code (numpy's
PCG64 bit generator), not part of this repository, so its draws are
spec-modelled below; the sampling logic around the draws follows
`arrivals.py`. -/

/-- `OrderFlowConfig` dataclass from `src/sim/arrivals.py`. -/
structure OrderFlowConfig where
  limit_rate : ℚ := 25
  market_rate : ℚ := 12
  cancel_rate : ℚ := 8
  imbalance : ℚ := 0
  limit_levels : ℕ := 4
  limit_qty_min : ℕ := 1
  limit_qty_max : ℕ := 6
  market_qty_min : ℕ := 1
  market_qty_max : ℕ := 4
  marketable_limit_prob : ℚ := 1/10
  informed_market_bias : ℚ := 0
  trend_flip_prob : ℚ := 2/100
  p_informed : ℚ := 0
  informed_qty_mult : ℚ := 18/10
  signal_flip_prob : ℚ := 2/100
  toxic_move_delay : ℚ := 5/100
  toxic_jump_ticks : ℤ := 1
  toxic_impact_fraction : ℚ := 1
  fundamental_rate : ℚ := 0
  fundamental_jump_ticks : ℤ := 1
  slow_adapt_prob : ℚ := 35/100
  slow_adapt_max_qty : ℤ := 4
deriving DecidableEq, Repr

/-- Modelled from the spec: «a seeded pseudo-random generator» — the numpy
`default_rng(seed)` PCG64 bit stream is external to the repository, so it is
modelled as an arbitrary fixed deterministic sequence of 32-bit draws
computed from the seed and the draw position. -/
def rngDraw (seed pos : ℕ) : ℕ :=
  (1103515245 * (seed + pos) + 12345) % 4294967296

/-- The state of the modelled generator: the seed and how many draws have
been consumed. -/
structure RngState where
  seed : ℕ
  pos : ℕ := 0
deriving DecidableEq, Repr

/-- Consume one raw 32-bit draw. -/
def RngState.next (r : RngState) : ℕ × RngState :=
  (rngDraw r.seed r.pos, { r with pos := r.pos + 1 })

/-- Modelled from the spec: `rng.random()`, a uniform draw in `[0, 1)`,
modelled as the raw draw scaled into `[0, 1)`. -/
def RngState.unit (r : RngState) : ℚ × RngState :=
  let (d, r') := r.next
  ((d : ℚ) / 4294967296, r')

/-- Modelled from the spec: `rng.integers(low, high)` (half-open), a uniform
integer draw, modelled as `low` plus the raw draw reduced mod the range. -/
def RngState.intRange (r : RngState) (low high : ℕ) : ℕ × RngState :=
  let (d, r') := r.next
  (if low < high then low + d % (high - low) else low, r')

/-- Modelled from the spec: `rng.exponential(scale)` is a positive real
determined by one draw; the transcendental `−scale·ln(1−u)` is irrational,
so it is modelled as a positive rational function of the draw with the same
determinism and positivity. -/
def expSample (scale u : ℚ) : ℚ := scale * (u + 1/2)

/-- `OrderFlowModel` mutable state: the generator plus the persistent
`_trend` and `_signal` regimes (each initialised from one draw in
`__init__`). -/
structure FlowState where
  rng : RngState
  trend : ℤ
  signal : ℤ
deriving DecidableEq, Repr

/-- `OrderFlowModel.__init__`: draw the initial `_trend` and `_signal`. -/
def FlowState.init (seed : ℕ) : FlowState :=
  let r0 : RngState := { seed := seed }
  let (u1, r1) := r0.unit
  let (u2, r2) := r1.unit
  { rng := r2, trend := if u1 < 1/2 then 1 else -1,
    signal := if u2 < 1/2 then 1 else -1 }

/-- `OrderFlowModel.next_time`: `now + Exp(1/rate)`, or never (`inf`,
modelled as `none`) when the rate is not positive. -/
def FlowState.nextTime (fs : FlowState) (now rate : ℚ) :
    Option ℚ × FlowState :=
  if rate ≤ 0 then (none, fs)
  else
    let (u, r') := fs.rng.unit
    (some (now + expSample (1 / rate) u), { fs with rng := r' })

/-- `OrderFlowModel.sample_side`. -/
def FlowState.sampleSide (fs : FlowState) (cfg : OrderFlowConfig)
    (isMarket : Bool) : Side × FlowState :=
  let imbalance := max (-1) (min 1 cfg.imbalance)
  let pBuy := 1/2 + 1/2 * imbalance
  let (pBuy, fs) :=
    if isMarket ∧ 0 < cfg.informed_market_bias then
      let (u, r') := fs.rng.unit
      let trend' := if u < cfg.trend_flip_prob then -fs.trend else fs.trend
      (pBuy + cfg.informed_market_bias * trend',
       { fs with rng := r', trend := trend' })
    else (pBuy, fs)
  let pBuy := max (1/100) (min (99/100) pBuy)
  let (u, r') := fs.rng.unit
  ((if u < pBuy then Side.BID else Side.ASK), { fs with rng := r' })

/-- `OrderFlowModel._sample_qty`: uniform in `[low, high]`. -/
def FlowState.sampleQty (fs : FlowState) (low high : ℕ) : ℕ × FlowState :=
  let (q, r') := fs.rng.intRange low (high + 1)
  (q, { fs with rng := r' })

/-- `OrderFlowModel.sample_limit`: side, tick-rounded price at a uniform
passive depth (occasionally marketable instead), and quantity. -/
def FlowState.sampleLimit (fs : FlowState) (cfg : OrderFlowConfig)
    (mid tick : ℚ) : (Side × ℚ × ℕ) × FlowState :=
  let (side, fs) := fs.sampleSide cfg false
  let (qty, fs) := fs.sampleQty cfg.limit_qty_min cfg.limit_qty_max
  let (lvl, r1) := fs.rng.intRange 1 (cfg.limit_levels + 1)
  let fs := { fs with rng := r1 }
  let (u, r2) := fs.rng.unit
  let fs := { fs with rng := r2 }
  let price :=
    match side with
    | .BID =>
      if u < cfg.marketable_limit_prob then mid + tick else mid - (lvl : ℚ) * tick
    | .ASK =>
      if u < cfg.marketable_limit_prob then mid - tick else mid + (lvl : ℚ) * tick
  ((side, roundToTick tick price, qty), fs)

/-- `OrderFlowModel.sample_market`. -/
def FlowState.sampleMarket (fs : FlowState) (cfg : OrderFlowConfig) :
    (Side × ℕ) × FlowState :=
  let (side, fs) := fs.sampleSide cfg true
  let (qty, fs) := fs.sampleQty cfg.market_qty_min cfg.market_qty_max
  ((side, qty), fs)

/-- `OrderFlowModel.should_send_informed`: Bernoulli with `p_informed`
clipped to `[0, 1]`. -/
def FlowState.shouldSendInformed (fs : FlowState) (cfg : OrderFlowConfig) :
    Bool × FlowState :=
  let p := max 0 (min 1 cfg.p_informed)
  let (u, r') := fs.rng.unit
  (decide (u < p), { fs with rng := r' })

/-- `OrderFlowModel.sample_signal`: the persistent signal, flipped with
probability `signal_flip_prob`. -/
def FlowState.sampleSignal (fs : FlowState) (cfg : OrderFlowConfig) :
    ℤ × FlowState :=
  let (u, r') := fs.rng.unit
  let signal' := if u < cfg.signal_flip_prob then -fs.signal else fs.signal
  (signal', { fs with rng := r', signal := signal' })

/-- `OrderFlowModel.sample_informed_market`. -/
def FlowState.sampleInformedMarket (fs : FlowState) (cfg : OrderFlowConfig) :
    (Side × ℕ × ℤ) × FlowState :=
  let (signal, fs) := fs.sampleSignal cfg
  let side := if 0 < signal then Side.BID else Side.ASK
  let (baseQty, fs) := fs.sampleQty cfg.market_qty_min cfg.market_qty_max
  let qty := max 1 (pyRound ((baseQty : ℚ) * cfg.informed_qty_mult)).toNat
  ((side, qty, signal), fs)

/-- `OrderFlowModel.sample_exogenous_signal`: a fair coin. -/
def FlowState.sampleExogenousSignal (fs : FlowState) : ℤ × FlowState :=
  let (u, r') := fs.rng.unit
  ((if u < 1/2 then 1 else -1), { fs with rng := r' })

/-! ## The event-driven simulator (`src/sim/engine.py`, `src/sim/events.py`) -/

/-- `EventType` enum from `src/sim/events.py`. -/
inductive EventType where
  | LIMIT_ARRIVAL
  | MARKET_ARRIVAL
  | CANCEL_ARRIVAL
  | MM_QUOTE_UPDATE
  | TOXIC_MOVE
  | FUNDAMENTAL_MOVE
deriving DecidableEq, Repr

/-- The `.value` string of an `EventType` (used in snapshots). -/
def EventType.value : EventType → String
  | .LIMIT_ARRIVAL => "LIMIT_ARRIVAL"
  | .MARKET_ARRIVAL => "MARKET_ARRIVAL"
  | .CANCEL_ARRIVAL => "CANCEL_ARRIVAL"
  | .MM_QUOTE_UPDATE => "MM_QUOTE_UPDATE"
  | .TOXIC_MOVE => "TOXIC_MOVE"
  | .FUNDAMENTAL_MOVE => "FUNDAMENTAL_MOVE"

/-- The payload dict of a fundamental-move event: `source`, `signal`,
`jump_ticks` (the source uses `payload.get` with defaults, modelled by
`Option`). -/
structure EventPayload where
  source : Option String := none
  signal : Option ℤ := none
  jump_ticks : Option ℤ := none
deriving DecidableEq, Repr

/-- `Event` dataclass: ordered by `(timestamp, seq)` in the heap. -/
structure Event where
  timestamp : ℚ
  seq : ℕ
  event_type : EventType
  payload : EventPayload := {}
deriving DecidableEq, Repr

/-- Strict heap order on events: lexicographic on `(timestamp, seq)`. -/
def Event.before (e1 e2 : Event) : Bool :=
  decide (e1.timestamp < e2.timestamp) ||
    (decide (e1.timestamp = e2.timestamp) && decide (e1.seq < e2.seq))

/-- Pop the minimum event (by `(timestamp, seq)`, as `heapq` does) from the
pending list. -/
def popMinEvent : List Event → Option (Event × List Event)
  | [] => none
  | e :: rest =>
    match popMinEvent rest with
    | none => some (e, [])
    | some (m, rest') =>
      if m.before e then some (m, e :: rest') else some (e, rest)

/-- `SimulatorConfig` dataclass from `src/sim/engine.py`. -/
structure SimulatorConfig where
  seed : ℕ := 7
  end_time : ℚ := 300
  base_price : ℚ := 100
  tick_size : ℚ := 1/100
  mm_update_rate : ℚ := 4
  mm_update_every_k_events : ℤ := 1
  environment_mode : String := "v1_control"
  adverse_horizon : ℚ := 1
  initial_depth_levels : ℕ := 3
  initial_depth_qty : ℕ := 20
  flow : OrderFlowConfig := {}
  market_maker : MarketMakerConfig := {}
deriving DecidableEq, Repr

/-- One snapshot row emitted by `EventDrivenSimulator._snapshot`. -/
structure Snapshot where
  timestamp : ℚ
  event_type : String
  event_idx : ℕ
  best_bid : Option ℚ
  best_ask : Option ℚ
  mid_price : ℚ
  fundamental_price : ℚ
  fundamental_gap : ℚ
  spread : Option ℚ
  top_bid_depth : ℕ
  top_ask_depth : ℕ
  mm_inventory : ℤ
  mm_cash : ℚ
  mm_realized_pnl : ℚ
  mm_unrealized_pnl : ℚ
  mm_pnl : ℚ
  mm_mtm_pnl : ℚ
  events_since_mm_refresh : ℤ
deriving DecidableEq, Repr

/-- `EventDrivenSimulator` state. -/
structure SimState where
  config : SimulatorConfig
  flow : FlowState
  book : Book
  factory : OrderFactory
  mm : MarketMaker
  now : ℚ := 0
  seq : ℕ := 0
  events : List Event := []
  event_count : ℕ := 0
  last_mm_refresh_event : ℕ := 0
  trades : List Trade := []
  snapshots : List Snapshot := []
  last_mid : ℚ
  fundamental_price : ℚ
deriving DecidableEq, Repr

/-- `EventDrivenSimulator.__init__`. -/
def SimState.init (cfg : SimulatorConfig) : SimState :=
  { config := cfg
    flow := FlowState.init cfg.seed
    book := {}
    factory := { tag := "ORD" }
    mm := { config := cfg.market_maker, tick_size := cfg.tick_size }
    last_mid := cfg.base_price
    fundamental_price := cfg.base_price }

/-- The pervasive `self.book.mid_price() or self._last_mid` idiom: Python's
`or` falls back when the mid is `None` — or `0.0`, which is falsy. -/
def Book.midOr (b : Book) (fallback : ℚ) : ℚ :=
  match b.midPrice with
  | none => fallback
  | some m => if m = 0 then fallback else m

/-- `EventDrivenSimulator._schedule`: push the event (skipped when the
timestamp is not finite, i.e. `none` here) and bump the sequence counter. -/
def SimState.schedule (s : SimState) (et : EventType) (timestamp : Option ℚ)
    (payload : EventPayload := {}) : SimState :=
  match timestamp with
  | none => s
  | some t =>
    { s with
      events := s.events ++
        [{ timestamp := t, seq := s.seq, event_type := et, payload := payload }]
      seq := s.seq + 1 }

/-- `EventDrivenSimulator._process_trades`: record the trades, forward each
to the agent, and stamp the timestamp onto any fill the agent logged. -/
def SimState.processTrades (s : SimState) (trades : List Trade) : SimState :=
  if trades.isEmpty then s
  else
    let mm' := trades.foldl
      (fun mm t =>
        let preCnt := mm.fills.length
        let mm1 := mm.onTrade t
        if preCnt < mm1.fills.length then
          { mm1 with fills :=
              mm1.fills.dropLast ++
                (mm1.fills.getLast?.map (fun fr => [{ fr with timestamp := some t.timestamp }])).getD [] }
        else mm1)
      s.mm
    { s with trades := s.trades ++ trades, mm := mm' }

/-- `EventDrivenSimulator._seed_book`: for each level `1..initial_depth_levels`,
rest a bid at `base − level·tick` and an ask at `base + level·tick` (rounded
to 10 decimals), each of quantity `initial_depth_qty`. -/
def SimState.seedBook (s : SimState) : SimState :=
  (List.range s.config.initial_depth_levels).foldl
    (fun s i =>
      let level : ℕ := i + 1
      let base := s.config.base_price
      let tick := s.config.tick_size
      let bidPrice := roundTo10 (base - (level : ℚ) * tick)
      let askPrice := roundTo10 (base + (level : ℚ) * tick)
      let (bidOrder, f1) := s.factory.limit 0 .BID bidPrice s.config.initial_depth_qty "FLOW"
      let s := { s with factory := f1 }
      let (askOrder, f2) := s.factory.limit 0 .ASK askPrice s.config.initial_depth_qty "FLOW"
      let s := { s with factory := f2 }
      let (b1, _, t1) := s.book.addOrder bidOrder
      let s := ({ s with book := b1 } : SimState).processTrades t1
      let (b2, _, t2) := s.book.addOrder askOrder
      ({ s with book := b2 } : SimState).processTrades t2)
    s

/-- `EventDrivenSimulator._handle_mm_quote_update`: cancel all active quote
ids, clear the set, re-quote both sides around the current mid, submit the
quotes, and track the ids of those that still rest. -/
def SimState.handleMMQuoteUpdate (s : SimState) : SimState :=
  let book1 := s.mm.active_order_ids.foldl (fun bk oid => (bk.cancel oid).1) s.book
  let s := { s with book := book1, mm := { s.mm with active_order_ids := [] } }
  let mid := s.book.midOr s.last_mid
  let (quotes, f') := s.mm.makeQuotes s.now mid s.book.bestBid s.book.bestAsk s.factory
  let s := { s with factory := f' }
  let s := quotes.foldl
    (fun s quote =>
      let (b', rem, trades) := s.book.addOrder quote
      let s := ({ s with book := b' } : SimState).processTrades trades
      if 0 < rem then
        { s with mm := { s.mm with active_order_ids := s.mm.active_order_ids ++ [quote.order_id] } }
      else s)
    s
  { s with last_mm_refresh_event := s.event_count }

/-- `EventDrivenSimulator._handle_limit_arrival`. -/
def SimState.handleLimitArrival (s : SimState) : SimState :=
  let mid := s.book.midOr s.last_mid
  let ((side, price, qty), fl) := s.flow.sampleLimit s.config.flow mid s.config.tick_size
  let s := { s with flow := fl }
  let (order, f') := s.factory.limit s.now side price qty "FLOW"
  let s := { s with factory := f' }
  let (b', _, trades) := s.book.addOrder order
  ({ s with book := b' } : SimState).processTrades trades

/-- `EventDrivenSimulator._handle_market_arrival`: possibly informed (which
also schedules the delayed fundamental move carrying the same signal). -/
def SimState.handleMarketArrival (s : SimState) : SimState :=
  let (informed, fl) := s.flow.shouldSendInformed s.config.flow
  let s := { s with flow := fl }
  let (side, qty, owner, s) :=
    if informed then
      let ((side, qty, signal), fl2) := s.flow.sampleInformedMarket s.config.flow
      let s := { s with flow := fl2 }
      let delay := max 0 s.config.flow.toxic_move_delay
      let s := s.schedule .FUNDAMENTAL_MOVE (some (s.now + delay))
        { source := some "informed", signal := some signal,
          jump_ticks := some (max 1 s.config.flow.toxic_jump_ticks) }
      (side, qty, "INFORMED", s)
    else
      let ((side, qty), fl2) := s.flow.sampleMarket s.config.flow
      ((side, qty, "FLOW", { s with flow := fl2 }) : Side × ℕ × String × SimState)
  let (order, f') := s.factory.market s.now side qty owner
  let s := { s with factory := f' }
  let (b', _, trades) := s.book.addOrder order
  ({ s with book := b' } : SimState).processTrades trades

/-- `EventDrivenSimulator._handle_cancel_arrival`: cancel a uniformly chosen
open `FLOW` order, if any. -/
def SimState.handleCancelArrival (s : SimState) : SimState :=
  let candidates := s.book.openOrders (some "FLOW")
  if candidates.isEmpty then s
  else
    let (i, r') := s.flow.rng.intRange 0 candidates.length
    let s := { s with flow := { s.flow with rng := r' } }
    match candidates.get? i with
    | none => s
    | some cid => { s with book := (s.book.cancel cid).1 }

/-- `EventDrivenSimulator._qty_to_force_jump`: the resting quantity strictly
inside `jump_ticks` ticks beyond the touch on the side a jump of sign
`signal` would consume. -/
def SimState.qtyToForceJump (s : SimState) (signal : ℤ) (jumpTicks : ℤ) : ℕ :=
  let tick := s.config.tick_size
  if 0 < signal then
    match s.book.bestAsk with
    | none => 0
    | some bestA =>
      let target := roundTo10 (bestA + (jumpTicks : ℚ) * tick)
      ((s.book.asks.takeWhile (fun l => decide (l.1 < target))).map
        (fun l => queueQty l.2)).sum
  else
    match s.book.bestBid with
    | none => 0
    | some bestB =>
      let target := roundTo10 (bestB - (jumpTicks : ℚ) * tick)
      ((s.book.bids.takeWhile (fun l => decide (target < l.1))).map
        (fun l => queueQty l.2)).sum

/-- `EventDrivenSimulator._apply_immediate_fundamental_impact`. -/
def SimState.applyImmediateFundamentalImpact (s : SimState) (signal : ℤ)
    (jumpTicks : ℤ) (source : String) : SimState :=
  let baseQty := s.qtyToForceJump signal jumpTicks
  if baseQty = 0 then s
  else
    let impact := max 0 (min 1 s.config.flow.toxic_impact_fraction)
    if impact ≤ 0 then s
    else
      let qty := max 1 (pyRound ((baseQty : ℚ) * impact)).toNat
      let qty := min baseQty qty
      let side := if 0 < signal then Side.BID else Side.ASK
      let owner := if source = "informed" then "LATENT_MOVE" else "FUNDAMENTAL_IMPACT"
      let (order, f') := s.factory.market s.now side qty owner
      let s := { s with factory := f' }
      let (b', _, trades) := s.book.addOrder order
      ({ s with book := b' } : SimState).processTrades trades

/-- `EventDrivenSimulator._handle_fundamental_move`. -/
def SimState.handleFundamentalMove (s : SimState) (payload : EventPayload) :
    SimState :=
  let (sig0, s) :=
    match payload.signal with
    | some sg => (sg, s)
    | none =>
      let (sg, fl) := s.flow.sampleExogenousSignal
      (sg, { s with flow := fl })
  let signal : ℤ := if 0 ≤ sig0 then 1 else -1
  let jumpTicks := max 1 (payload.jump_ticks.getD s.config.flow.fundamental_jump_ticks)
  let source := payload.source.getD "unknown"
  let fp' := roundTo10 (s.fundamental_price + (signal : ℚ) * (jumpTicks : ℚ) * s.config.tick_size)
  let s := { s with fundamental_price := fp' }
  if s.config.environment_mode = "v1_control" then
    s.applyImmediateFundamentalImpact signal jumpTicks source
  else s

/-- `EventDrivenSimulator._apply_slow_fundamental_adaptation` (v2 mode). -/
def SimState.applySlowFundamentalAdaptation (s : SimState) : Bool × SimState :=
  let mid := s.book.midOr s.last_mid
  let gap := s.fundamental_price - mid
  if |gap| < s.config.tick_size then (false, s)
  else
    let (u, r') := s.flow.rng.unit
    let s := { s with flow := { s.flow with rng := r' } }
    if max 0 (min 1 s.config.flow.slow_adapt_prob) ≤ u then (false, s)
    else
      let signal : ℤ := if 0 < gap then 1 else -1
      let side := if 0 < signal then Side.BID else Side.ASK
      let oneTickQty := s.qtyToForceJump signal 1
      if oneTickQty = 0 then (false, s)
      else
        let gapTicks := max 1 ⌊|gap| / s.config.tick_size⌋
        let qtyCap := (max 1 s.config.flow.slow_adapt_max_qty).toNat * (min 5 gapTicks).toNat
        let qty := max 1 (min oneTickQty qtyCap)
        let (order, f') := s.factory.market s.now side qty "FUND_ADAPT"
        let s := { s with factory := f' }
        let (b', _, trades) := s.book.addOrder order
        (true, ({ s with book := b' } : SimState).processTrades trades)

/-- `EventDrivenSimulator._schedule_next_exogenous_fundamental_move`. -/
def SimState.scheduleNextExogenousFundamentalMove (s : SimState) : SimState :=
  let (t?, fl) := s.flow.nextTime s.now s.config.flow.fundamental_rate
  let s := { s with flow := fl }
  match t? with
  | none => s
  | some t =>
    let (sg, fl2) := s.flow.sampleExogenousSignal
    let s := { s with flow := fl2 }
    s.schedule .FUNDAMENTAL_MOVE (some t)
      { source := some "exogenous", signal := some sg,
        jump_ticks := some (max 1 s.config.flow.fundamental_jump_ticks) }

/-- `EventDrivenSimulator._snapshot`. -/
def SimState.snapshot (s : SimState) (eventType : String) : SimState :=
  let bestB := s.book.bestBid
  let bestA := s.book.bestAsk
  let (mid, lastMid') :=
    match s.book.midPrice with
    | some m => (m, m)
    | none => (s.last_mid, s.last_mid)
  let s := { s with last_mid := lastMid' }
  let (bidDepth, askDepth) := s.book.topDepth
  let unrealized := s.mm.unrealizedPnl mid
  { s with snapshots := s.snapshots ++
      [{ timestamp := s.now
         event_type := eventType
         event_idx := s.event_count
         best_bid := bestB
         best_ask := bestA
         mid_price := mid
         fundamental_price := s.fundamental_price
         fundamental_gap := s.fundamental_price - mid
         spread := s.book.spread
         top_bid_depth := bidDepth
         top_ask_depth := askDepth
         mm_inventory := s.mm.inventory
         mm_cash := s.mm.cash
         mm_realized_pnl := s.mm.realized_pnl
         mm_unrealized_pnl := unrealized
         mm_pnl := s.mm.totalPnl mid
         mm_mtm_pnl := s.mm.markToMarket mid
         events_since_mm_refresh := (s.event_count : ℤ) - (s.last_mm_refresh_event : ℤ) }] }

/-- `EventDrivenSimulator._schedule_initial_events`. -/
def SimState.scheduleInitialEvents (s : SimState) : SimState :=
  let (t1, fl1) := s.flow.nextTime 0 s.config.flow.limit_rate
  let s := ({ s with flow := fl1 } : SimState).schedule .LIMIT_ARRIVAL t1
  let (t2, fl2) := s.flow.nextTime 0 s.config.flow.market_rate
  let s := ({ s with flow := fl2 } : SimState).schedule .MARKET_ARRIVAL t2
  let (t3, fl3) := s.flow.nextTime 0 s.config.flow.cancel_rate
  let s := ({ s with flow := fl3 } : SimState).schedule .CANCEL_ARRIVAL t3
  let s :=
    if s.config.mm_update_every_k_events ≤ 0 then
      let (t4, fl4) := s.flow.nextTime 0 s.config.mm_update_rate
      ({ s with flow := fl4 } : SimState).schedule .MM_QUOTE_UPDATE t4
    else s
  s.scheduleNextExogenousFundamentalMove

/-- One iteration of the `while self._events` loop of
`EventDrivenSimulator.run`: pop the earliest event and process it fully
(dispatch, reschedule, quote-refresh cadence, optional slow adaptation,
snapshot).  Returns `none` when the loop stops (queue empty or the popped
event is beyond the horizon). -/
def SimState.step (s : SimState) : Option SimState :=
  match popMinEvent s.events with
  | none => none
  | some (event, rest) =>
    if s.config.end_time < event.timestamp then none
    else
      let s := { s with events := rest, now := event.timestamp,
                        event_count := s.event_count + 1 }
      let snapshotEvent := event.event_type.value
      let (s, mmRefreshed) :=
        match event.event_type with
        | .LIMIT_ARRIVAL =>
          let s := s.handleLimitArrival
          let (t?, fl) := s.flow.nextTime s.now s.config.flow.limit_rate
          (({ s with flow := fl } : SimState).schedule .LIMIT_ARRIVAL t?, false)
        | .MARKET_ARRIVAL =>
          let s := s.handleMarketArrival
          let (t?, fl) := s.flow.nextTime s.now s.config.flow.market_rate
          (({ s with flow := fl } : SimState).schedule .MARKET_ARRIVAL t?, false)
        | .CANCEL_ARRIVAL =>
          let s := s.handleCancelArrival
          let (t?, fl) := s.flow.nextTime s.now s.config.flow.cancel_rate
          (({ s with flow := fl } : SimState).schedule .CANCEL_ARRIVAL t?, false)
        | .FUNDAMENTAL_MOVE =>
          let s := s.handleFundamentalMove event.payload
          let s :=
            if event.payload.source = some "exogenous" then
              s.scheduleNextExogenousFundamentalMove
            else s
          (s, false)
        | .TOXIC_MOVE =>
          (s.handleFundamentalMove event.payload, false)
        | .MM_QUOTE_UPDATE =>
          if s.config.mm_update_every_k_events ≤ 0 then
            let s := s.handleMMQuoteUpdate
            let (t?, fl) := s.flow.nextTime s.now s.config.mm_update_rate
            (({ s with flow := fl } : SimState).schedule .MM_QUOTE_UPDATE t?, true)
          else (s, false)
      let (s, mmRefreshed) :=
        if 0 < s.config.mm_update_every_k_events then
          let k := (max 1 s.config.mm_update_every_k_events).toNat
          if s.event_count % k = 0 then (s.handleMMQuoteUpdate, true)
          else (s, mmRefreshed)
        else (s, mmRefreshed)
      let (adaptApplied, s) :=
        if s.config.environment_mode = "v2_slow_adapt" then
          s.applySlowFundamentalAdaptation
        else (false, s)
      let snapshotEvent :=
        if mmRefreshed then snapshotEvent ++ "|MM_REFRESH" else snapshotEvent
      let snapshotEvent :=
        if adaptApplied then snapshotEvent ++ "|FUND_ADAPT" else snapshotEvent
      some (s.snapshot snapshotEvent)

/-- Run the event loop for at most `fuel` events (the Python loop runs until
the queue drains or the horizon is passed; every recurring event reschedules
itself, so a fuel bound stands in for the probabilistic termination
argument). -/
def SimState.runLoop : ℕ → SimState → SimState
  | 0, s => s
  | n + 1, s =>
    match s.step with
    | none => s
    | some s' => SimState.runLoop n s'

/-- The output record of `EventDrivenSimulator.run`. -/
structure SimOutput where
  snapshots : List Snapshot
  trades : List Trade
  mm_fills : List FillRec
  config : SimulatorConfig
deriving DecidableEq, Repr

/-- `EventDrivenSimulator.run`, bounded by `fuel` loop iterations: seed the
book, issue the initial quotes, schedule the initial events, snapshot, loop,
and collect the outputs. -/
def runSim (cfg : SimulatorConfig) (fuel : ℕ) : SimOutput :=
  let s := SimState.init cfg
  let s := s.seedBook
  let s := s.handleMMQuoteUpdate
  let s := s.scheduleInitialEvents
  let s := s.snapshot "INIT"
  let s := s.runLoop fuel
  { snapshots := s.snapshots, trades := s.trades, mm_fills := s.mm.fills,
    config := s.config }

/-! ## Derived state observations and well-formedness -/

/-- The levels of one side. -/
def Book.sideLevels (b : Book) : Side → List Level
  | .BID => b.bids
  | .ASK => b.asks

/-- All resting orders, bids then asks, in book order. -/
def Book.allOrders (b : Book) : List Order :=
  ((b.bids ++ b.asks).map Prod.snd).flatten

/-- The ids of all resting orders. -/
def Book.restingIds (b : Book) : List String :=
  b.allOrders.map Order.order_id

/-- The ids recorded in the order index. -/
def Book.indexIds (b : Book) : List String :=
  b.index.map IndexEntry.order_id

/-- The ids of resting orders with the given owner tag. -/
def Book.ownerRestingIds (b : Book) (w : String) : List String :=
  (b.allOrders.filter (fun o => decide (o.owner = w))).map Order.order_id

/-- The orders resting in a list of levels, in book order. -/
def ordersOf (ls : List Level) : List Order := (ls.map Prod.snd).flatten

/-- The ids of the orders resting in a list of levels. -/
def levelIds (ls : List Level) : List String := (ordersOf ls).map Order.order_id

/-- The total resting quantity of one side's levels. -/
def levelsQty (ls : List Level) : ℕ := (ls.map (fun l => queueQty l.2)).sum

/-- The sum of the quantities of a list of trades. -/
def tradesQty (ts : List Trade) : ℕ := (ts.map Trade.qty).sum

/-- The book never crosses at rest: every resting bid price is strictly
below every resting ask price. -/
def Book.uncrossed (b : Book) : Prop :=
  ∀ p ∈ levelPrices b.bids, ∀ q ∈ levelPrices b.asks, p < q

/-- Well-formedness of a book state, as maintained by the source: sides
sorted best price first with no duplicate price, no empty queue, positive
resting quantities, no duplicate order id, and an index that is exactly the
id → (side, price, owner) view of the resting orders. -/
structure Book.WF (b : Book) : Prop where
  bidsSorted : b.bids.Chain' (fun l1 l2 => l2.1 < l1.1)
  asksSorted : b.asks.Chain' (fun l1 l2 => l1.1 < l2.1)
  bidsNonempty : ∀ l ∈ b.bids, l.2 ≠ []
  asksNonempty : ∀ l ∈ b.asks, l.2 ≠ []
  qtyPos : ∀ o ∈ b.allOrders, 0 < o.qty
  idsNodup : b.restingIds.Nodup
  indexNodup : b.indexIds.Nodup
  indexSound : ∀ e ∈ b.index, ∃ l ∈ b.sideLevels e.side, l.1 = e.price ∧
    ∃ o ∈ l.2, o.order_id = e.order_id ∧ o.owner = e.owner
  bidsIndexed : ∀ l ∈ b.bids, ∀ o ∈ l.2,
    (⟨o.order_id, .BID, l.1, o.owner⟩ : IndexEntry) ∈ b.index
  asksIndexed : ∀ l ∈ b.asks, ∀ o ∈ l.2,
    (⟨o.order_id, .ASK, l.1, o.owner⟩ : IndexEntry) ∈ b.index

instance (b : Book) : Decidable b.WF :=
  decidable_of_iff
    (b.bids.Chain' (fun l1 l2 => l2.1 < l1.1) ∧
      b.asks.Chain' (fun l1 l2 => l1.1 < l2.1) ∧
      (∀ l ∈ b.bids, l.2 ≠ []) ∧
      (∀ l ∈ b.asks, l.2 ≠ []) ∧
      (∀ o ∈ b.allOrders, 0 < o.qty) ∧
      b.restingIds.Nodup ∧
      b.indexIds.Nodup ∧
      (∀ e ∈ b.index, ∃ l ∈ b.sideLevels e.side, l.1 = e.price ∧
        ∃ o ∈ l.2, o.order_id = e.order_id ∧ o.owner = e.owner) ∧
      (∀ l ∈ b.bids, ∀ o ∈ l.2,
        (⟨o.order_id, .BID, l.1, o.owner⟩ : IndexEntry) ∈ b.index) ∧
      (∀ l ∈ b.asks, ∀ o ∈ l.2,
        (⟨o.order_id, .ASK, l.1, o.owner⟩ : IndexEntry) ∈ b.index))
    ⟨fun ⟨h1, h2, h3, h4, h5, h6, h7, h8, h9, h10⟩ =>
      ⟨h1, h2, h3, h4, h5, h6, h7, h8, h9, h10⟩,
     fun ⟨h1, h2, h3, h4, h5, h6, h7, h8, h9, h10⟩ =>
      ⟨h1, h2, h3, h4, h5, h6, h7, h8, h9, h10⟩⟩

instance (b : Book) : Decidable b.uncrossed :=
  inferInstanceAs
    (Decidable (∀ p ∈ levelPrices b.bids, ∀ q ∈ levelPrices b.asks, p < q))

/-- The market maker state of an agent that starts flat with zero cash: all
accounting fields at their dataclass defaults. -/
def mmFlat (cfg : MarketMakerConfig) (tick : ℚ) : MarketMaker :=
  { config := cfg, tick_size := tick }

/-- The cash/position bookkeeping invariant linking the two P&L views:
`cash − initial_cash = realized_pnl − avg_entry_price · inventory`. -/
def pnlInvariant (mm : MarketMaker) : Prop :=
  mm.cash - mm.initial_cash = mm.realized_pnl - mm.avg_entry_price * (mm.inventory : ℚ)

/-- The simulator state seeded exactly as the claimed scenario: the default
config (`base_price = 100`, `tick_size = 0.01`, `initial_depth_levels = 3`,
`initial_depth_qty = 20`), after `_seed_book`. -/
def seededDefault : SimState := (SimState.init {}).seedBook

/-- The containment half of the claimed `active_order_ids` invariant, as a
decidable observation: every active id rests in the book. -/
def mmIdsResting (s : SimState) : Bool :=
  s.mm.active_order_ids.all (fun i => decide (i ∈ s.book.restingIds))

/-- A concrete resting bid used to instantiate the book theorems. -/
def wOrder1 : Order :=
  { order_id := "B1", timestamp := 0, side := .BID, order_type := .LIMIT,
    qty := 5, price := some 99, owner := "FLOW" }

/-- A concrete resting ask, first in its queue. -/
def wOrder2 : Order :=
  { order_id := "A1", timestamp := 0, side := .ASK, order_type := .LIMIT,
    qty := 2, price := some 101, owner := "FLOW" }

/-- A concrete resting ask, second in its queue (arrived later). -/
def wOrder3 : Order :=
  { order_id := "A2", timestamp := 1, side := .ASK, order_type := .LIMIT,
    qty := 3, price := some 101, owner := "FLOW" }

/-- A small concrete well-formed uncrossed book: one bid level, one ask
level whose queue holds two orders in arrival order. -/
def wBook : Book :=
  { bids := [(99, [wOrder1])],
    asks := [(101, [wOrder2, wOrder3])],
    index := [{ order_id := "B1", side := .BID, price := 99, owner := "FLOW" },
              { order_id := "A1", side := .ASK, price := 101, owner := "FLOW" },
              { order_id := "A2", side := .ASK, price := 101, owner := "FLOW" }] }

/-- A crossing limit buy against `wBook` (price at the best ask, partially
filling the second queued ask). -/
def wTaker : Order :=
  { order_id := "T1", timestamp := 2, side := .BID, order_type := .LIMIT,
    qty := 4, price := some 101, owner := "FLOW" }

/-- A market buy against `wBook` larger than the whole ask depth. -/
def wMarket : Order :=
  { order_id := "T2", timestamp := 2, side := .BID, order_type := .MARKET,
    qty := 100, price := none, owner := "FLOW" }

/-- A concrete simulator state poised before one `MARKET_ARRIVAL` event: the
market maker has one resting ask quote (`MM-1`, tracked in
`active_order_ids`), the flow is configured to send an informed buy of
quantity 5 (more than the quote's 3), and the quote refresh cadence
(`mm_update_every_k_events = 2`) does not fire on this event. -/
def c8State : SimState :=
  { config := { mm_update_every_k_events := 2,
                flow := { p_informed := 1, signal_flip_prob := 0,
                          informed_qty_mult := 1, market_qty_min := 5,
                          market_qty_max := 5, market_rate := 0 } }
    flow := { rng := { seed := 7 }, trend := 1, signal := 1 }
    book := { bids := [(99, [wOrder1])],
              asks := [(101, [{ order_id := "MM-1", timestamp := 0,
                                side := .ASK, order_type := .LIMIT, qty := 3,
                                price := some 101, owner := "MM" }])],
              index := [{ order_id := "B1", side := .BID, price := 99,
                          owner := "FLOW" },
                        { order_id := "MM-1", side := .ASK, price := 101,
                          owner := "MM" }] }
    factory := { tag := "ORD", counter := 10 }
    mm := { config := {}, tick_size := 1/100, active_order_ids := ["MM-1"] }
    now := 0
    seq := 3
    events := [{ timestamp := 1, seq := 0, event_type := .MARKET_ARRIVAL }]
    event_count := 0
    last_mid := 100
    fundamental_price := 100 }

/-! # Theorems

## P&L reconciliation (claim C2) -/

theorem updatePosition_cash (mm : MarketMaker) (s : ℤ) (qty : ℕ) (p : ℚ) :
    (mm.updatePosition s qty p).cash = mm.cash ∧
    (mm.updatePosition s qty p).initial_cash = mm.initial_cash := by
  dsimp only [MarketMaker.updatePosition]
  split_ifs <;> exact ⟨rfl, rfl⟩

theorem updatePosition_pnl_delta (mm : MarketMaker) (s : ℤ)
    (hs : s = 1 ∨ s = -1) (qty : ℕ) (p : ℚ) :
    (mm.updatePosition s qty p).realized_pnl
      - (mm.updatePosition s qty p).avg_entry_price *
        ((mm.updatePosition s qty p).inventory : ℚ)
    = mm.realized_pnl - mm.avg_entry_price * (mm.inventory : ℚ)
        - (s : ℚ) * (p * (qty : ℚ)) := by
  by_cases h0 : mm.inventory = 0
  · simp only [MarketMaker.updatePosition, if_pos h0, h0]
    push_cast
    ring
  by_cases hsame : 0 < mm.inventory * s
  · simp only [MarketMaker.updatePosition, if_neg h0, if_pos hsame]
    rcases hs with hs | hs <;> subst hs
    · have hpos : 0 < mm.inventory := by nlinarith
      rw [abs_of_pos hpos]
      have hne : ((mm.inventory : ℚ) + (qty : ℚ)) ≠ 0 := by
        have h1 : (0:ℚ) < (mm.inventory : ℚ) := by exact_mod_cast hpos
        positivity
      push_cast
      field_simp
      ring
    · have hneg : mm.inventory < 0 := by nlinarith
      rw [abs_of_neg hneg]
      have hne : (-(mm.inventory : ℚ) + (qty : ℚ)) ≠ 0 := by
        have h1 : (mm.inventory : ℚ) < 0 := by exact_mod_cast hneg
        have h2 : (0:ℚ) < -(mm.inventory : ℚ) := by linarith
        positivity
      push_cast
      field_simp
      ring
  · simp only [MarketMaker.updatePosition, if_neg h0, if_neg hsame]
    rcases hs with hs | hs <;> subst hs
    · have hneg : mm.inventory < 0 := by
        simp only [mul_one] at hsame
        omega
      have hnl : ¬ 0 < mm.inventory := by omega
      rw [abs_of_neg hneg]
      simp only [if_neg hnl]
      rcases le_total (-mm.inventory) (qty : ℤ) with hmin | hmin
      · rw [min_eq_left hmin]
        split_ifs with h1 h2
        · push_cast
          ring
        · have hqq : (qty : ℚ) = -(mm.inventory : ℚ) := by
            have hq : (qty : ℤ) = -mm.inventory := by omega
            exact_mod_cast hq
          push_cast
          linear_combination p * hqq
        · exfalso
          omega
      · rw [min_eq_right hmin]
        split_ifs with h1 h2
        · exfalso
          omega
        · have hzq : (mm.inventory : ℚ) + (qty : ℚ) = 0 := by exact_mod_cast
            (by omega : mm.inventory + (qty : ℤ) = 0)
          push_cast
          linear_combination mm.avg_entry_price * hzq
        · push_cast
          ring
    · have hpos : 0 < mm.inventory := by
        simp only [mul_neg, mul_one] at hsame
        omega
      rw [abs_of_pos hpos]
      simp only [if_pos hpos]
      rcases le_total mm.inventory (qty : ℤ) with hmin | hmin
      · rw [min_eq_left hmin]
        split_ifs with h1 h2
        · push_cast
          ring
        · have hqq : (qty : ℚ) = (mm.inventory : ℚ) := by
            have hq : (qty : ℤ) = mm.inventory := by omega
            exact_mod_cast hq
          push_cast
          linear_combination (-p) * hqq
        · exfalso
          omega
      · rw [min_eq_right hmin]
        split_ifs with h1 h2
        · exfalso
          omega
        · have hzq : (mm.inventory : ℚ) - (qty : ℚ) = 0 := by exact_mod_cast
            (by omega : mm.inventory - (qty : ℤ) = 0)
          push_cast
          linear_combination mm.avg_entry_price * hzq
        · push_cast
          ring

theorem pnlInvariant_applyFill (mm : MarketMaker) (side : Side) (p : ℚ)
    (qty : ℕ) (h : pnlInvariant mm) : pnlInvariant (mm.applyFill side p qty) := by
  unfold pnlInvariant at h ⊢
  cases side
  case BID =>
    have hd := updatePosition_pnl_delta { mm with cash := mm.cash + -(p * (qty : ℚ)) }
      1 (Or.inl rfl) qty p
    have hc := updatePosition_cash { mm with cash := mm.cash + -(p * (qty : ℚ)) }
      1 qty p
    show ({ mm with cash := mm.cash + -(p * (qty : ℚ)) }.updatePosition 1 qty p).cash
        - ({ mm with cash := mm.cash + -(p * (qty : ℚ)) }.updatePosition 1 qty p).initial_cash
      = ({ mm with cash := mm.cash + -(p * (qty : ℚ)) }.updatePosition 1 qty p).realized_pnl
        - ({ mm with cash := mm.cash + -(p * (qty : ℚ)) }.updatePosition 1 qty p).avg_entry_price
          * (({ mm with cash := mm.cash + -(p * (qty : ℚ)) }.updatePosition 1 qty p).inventory : ℚ)
    rw [hc.1, hc.2, hd]
    dsimp only
    push_cast
    linarith
  case ASK =>
    have hd := updatePosition_pnl_delta { mm with cash := mm.cash + p * (qty : ℚ) }
      (-1) (Or.inr rfl) qty p
    have hc := updatePosition_cash { mm with cash := mm.cash + p * (qty : ℚ) }
      (-1) qty p
    show ({ mm with cash := mm.cash + p * (qty : ℚ) }.updatePosition (-1) qty p).cash
        - ({ mm with cash := mm.cash + p * (qty : ℚ) }.updatePosition (-1) qty p).initial_cash
      = ({ mm with cash := mm.cash + p * (qty : ℚ) }.updatePosition (-1) qty p).realized_pnl
        - ({ mm with cash := mm.cash + p * (qty : ℚ) }.updatePosition (-1) qty p).avg_entry_price
          * (({ mm with cash := mm.cash + p * (qty : ℚ) }.updatePosition (-1) qty p).inventory : ℚ)
    rw [hc.1, hc.2, hd]
    dsimp only
    push_cast
    linarith

theorem pnlInvariant_onTrade (mm : MarketMaker) (t : Trade)
    (h : pnlInvariant mm) : pnlInvariant (mm.onTrade t) := by
  unfold MarketMaker.onTrade
  split_ifs <;> first
    | exact pnlInvariant_applyFill _ _ _ _ h
    | exact h

theorem pnlInvariant_foldl (mm : MarketMaker) (ts : List Trade)
    (h : pnlInvariant mm) : pnlInvariant (ts.foldl MarketMaker.onTrade mm) := by
  induction ts generalizing mm with
  | nil => exact h
  | cons t ts ih => exact ih _ (pnlInvariant_onTrade _ _ h)

theorem unrealizedPnl_eq (mm : MarketMaker) (mid : ℚ) :
    mm.unrealizedPnl mid = (mid - mm.avg_entry_price) * (mm.inventory : ℚ) := by
  unfold MarketMaker.unrealizedPnl
  by_cases h0 : mm.inventory = 0
  · simp [h0]
  · by_cases hpos : 0 < mm.inventory
    · simp [h0, hpos]
    · have hneg : mm.inventory < 0 := by omega
      have hnegq : (mm.inventory : ℚ) < 0 := by exact_mod_cast hneg
      rw [if_neg h0, if_neg hpos, abs_of_neg hnegq]
      ring

theorem totalPnl_eq_markToMarket (mm : MarketMaker) (mid : ℚ)
    (h : pnlInvariant mm) : mm.totalPnl mid = mm.markToMarket mid := by
  unfold MarketMaker.totalPnl MarketMaker.markToMarket
  rw [unrealizedPnl_eq]
  unfold pnlInvariant at h
  linarith [h]

/-! ## Matching-loop lemmas -/

theorem fillQueue_nil (taker : Order) (price : ℚ) (tq : ℕ) :
    fillQueue taker price tq [] = ⟨tq, [], [], []⟩ := rfl

theorem fillQueue_conservation (taker : Order) (price : ℚ) (tq : ℕ)
    (q : List Order) :
    (fillQueue taker price tq q).takerQty +
        tradesQty (fillQueue taker price tq q).trades = tq ∧
      queueQty (fillQueue taker price tq q).queue +
        tradesQty (fillQueue taker price tq q).trades = queueQty q := by
  induction q generalizing tq with
  | nil => simp [fillQueue, tradesQty]
  | cons maker rest ih =>
    by_cases h0 : tq = 0
    · simp [fillQueue, h0, tradesQty]
    · by_cases hfull : maker.qty - min tq maker.qty = 0
      · have h1 := (ih (tq - min tq maker.qty)).1
        have h2 := (ih (tq - min tq maker.qty)).2
        simp only [fillQueue, if_neg h0, if_pos hfull, tradesQty, List.map_cons,
          List.sum_cons, mkTrade] at *
        constructor
        · omega
        · simp only [queueQty, List.map_cons, List.sum_cons] at *
          omega
      · simp only [fillQueue, if_neg h0, if_neg hfull, tradesQty, List.map_cons,
          List.map_nil, List.sum_cons, List.sum_nil, mkTrade, queueQty]
        constructor
        · omega
        · omega

theorem fillQueue_queue_ne (taker : Order) (price : ℚ) (tq : ℕ)
    (q : List Order) (h : (fillQueue taker price tq q).queue ≠ []) :
    (fillQueue taker price tq q).takerQty = 0 := by
  induction q generalizing tq with
  | nil => simp [fillQueue] at h
  | cons maker rest ih =>
    by_cases h0 : tq = 0
    · simp [fillQueue, h0]
    · by_cases hfull : maker.qty - min tq maker.qty = 0
      · simp only [fillQueue, if_neg h0, if_pos hfull] at h ⊢
        exact ih _ h
      · simp only [fillQueue, if_neg h0, if_neg hfull]
        omega

theorem fillQueue_trades_from (taker : Order) (price : ℚ) (tq : ℕ)
    (q : List Order) :
    ∀ t ∈ (fillQueue taker price tq q).trades, ∃ maker ∈ q,
      t.maker_order_id = maker.order_id ∧ t.price = price ∧
      t.qty ≤ maker.qty ∧ (0 < maker.qty → 1 ≤ t.qty) ∧
      t.taker_order_id = taker.order_id := by
  induction q generalizing tq with
  | nil => simp [fillQueue]
  | cons maker rest ih =>
    intro t ht
    by_cases h0 : tq = 0
    · simp [fillQueue, h0] at ht
    · by_cases hfull : maker.qty - min tq maker.qty = 0
      · simp only [fillQueue, if_neg h0, if_pos hfull, List.mem_cons] at ht
        rcases ht with ht | ht
        · exact ⟨maker, List.mem_cons_self _ _,
            by simp [ht, mkTrade], by simp [ht, mkTrade],
            by simp [ht, mkTrade, min_le_right],
            by simp [ht, mkTrade]; omega, by simp [ht, mkTrade]⟩
        · obtain ⟨m, hm, h1, h2, h3, h4, h5⟩ := ih _ t ht
          exact ⟨m, List.mem_cons_of_mem _ hm, h1, h2, h3, h4, h5⟩
      · simp only [fillQueue, if_neg h0, if_neg hfull, List.mem_cons,
          List.not_mem_nil, or_false] at ht
        exact ⟨maker, List.mem_cons_self _ _,
          by simp [ht, mkTrade], by simp [ht, mkTrade],
          by simp [ht, mkTrade, min_le_right],
          by simp [ht, mkTrade]; omega, by simp [ht, mkTrade]⟩

theorem fillQueue_drain (taker : Order) (price : ℚ) (tq : ℕ) (q : List Order)
    (hpos : ∀ o ∈ q, 0 < o.qty) (hle : queueQty q ≤ tq) :
    (fillQueue taker price tq q).queue = [] ∧
      (fillQueue taker price tq q).takerQty = tq - queueQty q := by
  induction q generalizing tq with
  | nil => simp [fillQueue, queueQty]
  | cons maker rest ih =>
    have hmq : 0 < maker.qty := hpos maker (List.mem_cons_self _ _)
    have hq : queueQty (maker :: rest) = maker.qty + queueQty rest := by
      simp [queueQty]
    have h0 : tq ≠ 0 := by omega
    have hfull : maker.qty - min tq maker.qty = 0 := by omega
    have hmin : min tq maker.qty = maker.qty := by omega
    simp only [fillQueue, if_neg h0, if_pos hfull]
    have := ih (tq - min tq maker.qty)
      (fun o ho => hpos o (List.mem_cons_of_mem _ ho)) (by omega)
    refine ⟨this.1, ?_⟩
    rw [this.2]
    omega

theorem fillQueue_fifo (taker : Order) (price : ℚ) (tq : ℕ)
    (A B : Order) (rest : List Order) (hAB : A.order_id ≠ B.order_id)
    (hB : ∃ t ∈ (fillQueue taker price tq (A :: B :: rest)).trades,
      t.maker_order_id = B.order_id) :
    ∃ ts, (fillQueue taker price tq (A :: B :: rest)).trades =
        mkTrade taker A price A.qty ::
          mkTrade taker B price (min (tq - A.qty) B.qty) :: ts ∧
      A.qty < tq := by
  by_cases h0 : tq = 0
  · simp [fillQueue, h0] at hB
  by_cases hfull : A.qty - min tq A.qty = 0
  · have hAq : min tq A.qty = A.qty := by omega
    by_cases h0' : tq - min tq A.qty = 0
    · exfalso
      have htr : (fillQueue taker price tq (A :: B :: rest)).trades =
          [mkTrade taker A price (min tq A.qty)] := by
        simp only [fillQueue, if_neg h0, if_pos hfull, if_pos h0']
      rw [htr] at hB
      obtain ⟨t, ht, htb⟩ := hB
      rw [List.mem_singleton] at ht
      rw [ht] at htb
      exact hAB (by simpa [mkTrade] using htb)
    · by_cases hfull2 : B.qty - min (tq - min tq A.qty) B.qty = 0
      · have htr : (fillQueue taker price tq (A :: B :: rest)).trades =
            mkTrade taker A price (min tq A.qty) ::
              mkTrade taker B price (min (tq - min tq A.qty) B.qty) ::
              (fillQueue taker price
                (tq - min tq A.qty - min (tq - min tq A.qty) B.qty) rest).trades := by
          simp only [fillQueue, if_neg h0, if_pos hfull, if_neg h0', if_pos hfull2]
        rw [hAq] at htr
        exact ⟨_, htr, by omega⟩
      · have htr : (fillQueue taker price tq (A :: B :: rest)).trades =
            mkTrade taker A price (min tq A.qty) ::
              mkTrade taker B price (min (tq - min tq A.qty) B.qty) :: [] := by
          simp only [fillQueue, if_neg h0, if_pos hfull, if_neg h0', if_neg hfull2]
        rw [hAq] at htr
        exact ⟨_, htr, by omega⟩
  · exfalso
    have htr : (fillQueue taker price tq (A :: B :: rest)).trades =
        [mkTrade taker A price (min tq A.qty)] := by
      simp only [fillQueue, if_neg h0, if_neg hfull]
    rw [htr] at hB
    obtain ⟨t, ht, htb⟩ := hB
    rw [List.mem_singleton] at ht
    rw [ht] at htb
    exact hAB (by simpa [mkTrade] using htb)

theorem matchLevels_prices_suffix (taker : Order) (tq : ℕ) (ls : List Level) :
    levelPrices (matchLevels taker tq ls).levels <:+ levelPrices ls := by
  induction ls generalizing tq with
  | nil => simp [matchLevels]
  | cons l rest ih =>
    obtain ⟨p, q⟩ := l
    by_cases h0 : tq = 0
    · simp [matchLevels, h0]
    · by_cases hcross : priceCrosses taker p
      · simp only [matchLevels, if_neg h0, if_pos hcross]
        by_cases hemp : (fillQueue taker p tq q).queue = []
        · simp only [if_pos hemp]
          exact ((ih _).trans (by simp [levelPrices, List.suffix_cons]))
        · simp [if_neg hemp, levelPrices]
      · simp only [matchLevels, if_neg h0, if_neg hcross]
        simp [levelPrices]

theorem matchLevels_conservation (taker : Order) (tq : ℕ) (ls : List Level) :
    (matchLevels taker tq ls).takerQty +
        tradesQty (matchLevels taker tq ls).trades = tq ∧
      levelsQty (matchLevels taker tq ls).levels +
        tradesQty (matchLevels taker tq ls).trades = levelsQty ls := by
  induction ls generalizing tq with
  | nil => simp [matchLevels, tradesQty]
  | cons l rest ih =>
    obtain ⟨p, q⟩ := l
    by_cases h0 : tq = 0
    · simp [matchLevels, h0, tradesQty]
    · by_cases hcross : priceCrosses taker p
      · simp only [matchLevels, if_neg h0, if_pos hcross]
        have hfq1 := (fillQueue_conservation taker p tq q).1
        have hfq2 := (fillQueue_conservation taker p tq q).2
        by_cases hemp : (fillQueue taker p tq q).queue = []
        · have hq0 : queueQty (fillQueue taker p tq q).queue = 0 := by
            simp [hemp, queueQty]
          have hrec1 := (ih (fillQueue taker p tq q).takerQty).1
          have hrec2 := (ih (fillQueue taker p tq q).takerQty).2
          simp only [if_pos hemp]
          simp only [tradesQty, List.map_append, List.sum_append, levelsQty,
            List.map_cons, List.sum_cons] at *
          omega
        · simp only [if_neg hemp]
          simp only [tradesQty, levelsQty, List.map_cons, List.sum_cons] at *
          omega
      · simp [matchLevels, if_neg h0, if_neg hcross, tradesQty]

theorem matchLevels_trades_from (taker : Order) (tq : ℕ) (ls : List Level) :
    ∀ t ∈ (matchLevels taker tq ls).trades, ∃ l ∈ ls, ∃ maker ∈ l.2,
      t.maker_order_id = maker.order_id ∧ t.price = l.1 ∧
      t.qty ≤ maker.qty ∧ (0 < maker.qty → 1 ≤ t.qty) ∧
      t.taker_order_id = taker.order_id := by
  induction ls generalizing tq with
  | nil => simp [matchLevels]
  | cons l rest ih =>
    obtain ⟨p, q⟩ := l
    intro t ht
    by_cases h0 : tq = 0
    · simp [matchLevels, h0] at ht
    · by_cases hcross : priceCrosses taker p
      · simp only [matchLevels, if_neg h0, if_pos hcross] at ht
        by_cases hemp : (fillQueue taker p tq q).queue = []
        · simp only [if_pos hemp, List.mem_append] at ht
          rcases ht with ht | ht
          · obtain ⟨m, hm, h1, h2, h3, h4, h5⟩ := fillQueue_trades_from taker p tq q t ht
            exact ⟨(p, q), List.mem_cons_self _ _, m, hm, h1, h2, h3, h4, h5⟩
          · obtain ⟨l', hl', m, hm, hs⟩ := ih _ t ht
            exact ⟨l', List.mem_cons_of_mem _ hl', m, hm, hs⟩
        · simp only [if_neg hemp] at ht
          obtain ⟨m, hm, h1, h2, h3, h4, h5⟩ := fillQueue_trades_from taker p tq q t ht
          exact ⟨(p, q), List.mem_cons_self _ _, m, hm, h1, h2, h3, h4, h5⟩
      · simp [matchLevels, if_neg h0, if_neg hcross] at ht

theorem chain'_asc_pairwise (ls : List Level)
    (h : ls.Chain' (fun l1 l2 => l1.1 < l2.1)) :
    ls.Pairwise (fun l1 l2 => l1.1 < l2.1) := by
  haveI : IsTrans Level (fun l1 l2 : Level => l1.1 < l2.1) :=
    ⟨fun a b c hab hbc => lt_trans hab hbc⟩
  exact List.chain'_iff_pairwise.mp h

theorem chain'_desc_pairwise (ls : List Level)
    (h : ls.Chain' (fun l1 l2 => l2.1 < l1.1)) :
    ls.Pairwise (fun l1 l2 => l2.1 < l1.1) := by
  haveI : IsTrans Level (fun l1 l2 : Level => l2.1 < l1.1) :=
    ⟨fun a b c hab hbc => lt_trans hbc hab⟩
  exact List.chain'_iff_pairwise.mp h

theorem matchLevels_stop_bid (taker : Order) (tq : ℕ) (ls : List Level)
    (lp : ℚ) (hside : taker.side = .BID) (htype : taker.order_type = .LIMIT)
    (hp : taker.price = some lp)
    (hsort : ls.Pairwise (fun l1 l2 => l1.1 < l2.1))
    (h : (matchLevels taker tq ls).takerQty ≠ 0) :
    ∀ pr ∈ levelPrices (matchLevels taker tq ls).levels, lp < pr := by
  induction ls generalizing tq with
  | nil => simp [matchLevels, levelPrices]
  | cons l rest ih =>
    obtain ⟨p, q⟩ := l
    by_cases h0 : tq = 0
    · simp only [matchLevels, if_pos h0] at h
      exact absurd h0 h
    · by_cases hcross : priceCrosses taker p
      · simp only [matchLevels, if_neg h0, if_pos hcross] at h ⊢
        by_cases hemp : (fillQueue taker p tq q).queue = []
        · simp only [if_pos hemp] at h ⊢
          exact ih _ (List.Pairwise.sublist (List.sublist_cons_self _ _) hsort) h
        · simp only [if_neg hemp] at h
          exact absurd (fillQueue_queue_ne taker p tq q hemp) h
      · have hlt : lp < p := by
          simp only [priceCrosses, htype, hp, hside] at hcross
          exact lt_of_not_le (by simpa using hcross)
        simp only [matchLevels, if_neg h0, if_neg hcross]
        intro pr hpr
        simp only [levelPrices, List.map_cons, List.mem_cons] at hpr
        rcases hpr with rfl | hpr
        · exact hlt
        · simp only [List.mem_map] at hpr
          obtain ⟨l', hl', rfl⟩ := hpr
          have := (List.pairwise_cons.mp hsort).1 l' hl'
          exact hlt.trans this

theorem matchLevels_stop_ask (taker : Order) (tq : ℕ) (ls : List Level)
    (lp : ℚ) (hside : taker.side = .ASK) (htype : taker.order_type = .LIMIT)
    (hp : taker.price = some lp)
    (hsort : ls.Pairwise (fun l1 l2 => l2.1 < l1.1))
    (h : (matchLevels taker tq ls).takerQty ≠ 0) :
    ∀ pr ∈ levelPrices (matchLevels taker tq ls).levels, pr < lp := by
  induction ls generalizing tq with
  | nil => simp [matchLevels, levelPrices]
  | cons l rest ih =>
    obtain ⟨p, q⟩ := l
    by_cases h0 : tq = 0
    · simp only [matchLevels, if_pos h0] at h
      exact absurd h0 h
    · by_cases hcross : priceCrosses taker p
      · simp only [matchLevels, if_neg h0, if_pos hcross] at h ⊢
        by_cases hemp : (fillQueue taker p tq q).queue = []
        · simp only [if_pos hemp] at h ⊢
          exact ih _ (List.Pairwise.sublist (List.sublist_cons_self _ _) hsort) h
        · simp only [if_neg hemp] at h
          exact absurd (fillQueue_queue_ne taker p tq q hemp) h
      · have hlt : p < lp := by
          simp only [priceCrosses, htype, hp, hside] at hcross
          exact lt_of_not_le (by simpa using hcross)
        simp only [matchLevels, if_neg h0, if_neg hcross]
        intro pr hpr
        simp only [levelPrices, List.map_cons, List.mem_cons] at hpr
        rcases hpr with rfl | hpr
        · exact hlt
        · simp only [List.mem_map] at hpr
          obtain ⟨l', hl', rfl⟩ := hpr
          have := (List.pairwise_cons.mp hsort).1 l' hl'
          exact this.trans hlt

theorem matchLevels_drain (taker : Order) (tq : ℕ) (ls : List Level)
    (hpos : ∀ l ∈ ls, ∀ o ∈ l.2, 0 < o.qty)
    (hne : ∀ l ∈ ls, l.2 ≠ [])
    (hmkt : taker.order_type = .MARKET) (hle : levelsQty ls ≤ tq) :
    (matchLevels taker tq ls).levels = [] ∧
      (matchLevels taker tq ls).takerQty = tq - levelsQty ls := by
  induction ls generalizing tq with
  | nil => simp [matchLevels, levelsQty]
  | cons l rest ih =>
    obtain ⟨p, q⟩ := l
    have hcross : priceCrosses taker p := by simp [priceCrosses, hmkt]
    have hq1 : 1 ≤ queueQty q := by
      rcases q with _ | ⟨o, q'⟩
      · exact absurd rfl (hne (p, []) (List.mem_cons_self _ _))
      · have := hpos (p, o :: q') (List.mem_cons_self _ _) o (List.mem_cons_self _ _)
        simp only [queueQty, List.map_cons, List.sum_cons]
        omega
    have hql : levelsQty ((p, q) :: rest) = queueQty q + levelsQty rest := by
      simp [levelsQty]
    have h0 : tq ≠ 0 := by omega
    simp only [matchLevels, if_neg h0, if_pos hcross]
    have hdrq := fillQueue_drain taker p tq q
      (hpos (p, q) (List.mem_cons_self _ _)) (by omega)
    simp only [if_pos hdrq.1]
    have hrec := ih (fillQueue taker p tq q).takerQty
      (fun l' hl' => hpos l' (List.mem_cons_of_mem _ hl'))
      (fun l' hl' => hne l' (List.mem_cons_of_mem _ hl'))
      (by rw [hdrq.2]; omega)
    refine ⟨hrec.1, ?_⟩
    rw [hrec.2, hdrq.2]
    omega

/-! ## Price-ordering lemmas -/

theorem insertOrderAt_prices_mem (better : ℚ → ℚ → Bool) (p : ℚ) (o : Order)
    (ls : List Level) (x : ℚ) :
    x ∈ levelPrices (insertOrderAt better p o ls) ↔ x = p ∨ x ∈ levelPrices ls := by
  induction ls with
  | nil => simp [insertOrderAt, levelPrices]
  | cons l rest ih =>
    obtain ⟨q, os⟩ := l
    by_cases hpq : p = q
    · subst hpq
      simp [insertOrderAt, levelPrices]
    · by_cases hb : better p q
      · simp only [insertOrderAt, if_neg hpq, if_pos hb]
        simp [levelPrices]
      · simp only [insertOrderAt, if_neg hpq, if_neg hb]
        simp only [levelPrices, List.map_cons, List.mem_cons] at ih ⊢
        rw [or_left_comm]
        simp [ih]

theorem matchOrder_bid (b : Book) (o : Order) (hs : o.side = .BID) :
    b.matchOrder o =
      ({ b with asks := (matchLevels o o.qty b.asks).levels,
                index := removeIds b.index (matchLevels o o.qty b.asks).removed },
       (matchLevels o o.qty b.asks).takerQty,
       (matchLevels o o.qty b.asks).trades) := by
  unfold Book.matchOrder
  rw [hs]

theorem matchOrder_ask (b : Book) (o : Order) (hs : o.side = .ASK) :
    b.matchOrder o =
      ({ b with bids := (matchLevels o o.qty b.bids).levels,
                index := removeIds b.index (matchLevels o o.qty b.bids).removed },
       (matchLevels o o.qty b.bids).takerQty,
       (matchLevels o o.qty b.bids).trades) := by
  unfold Book.matchOrder
  rw [hs]

theorem addResting_none (b : Book) (o : Order) (hp : o.price = none) :
    b.addResting o = b := by
  unfold Book.addResting
  rw [hp]

theorem addResting_bid (b : Book) (o : Order) (p : ℚ) (hp : o.price = some p)
    (hs : o.side = .BID) :
    b.addResting o =
      { b with bids := insertOrderAt (fun x y => decide (y < x)) p o b.bids,
               index := b.index ++
                 [{ order_id := o.order_id, side := .BID, price := p, owner := o.owner }] } := by
  unfold Book.addResting
  rw [hp, hs]

theorem addResting_ask (b : Book) (o : Order) (p : ℚ) (hp : o.price = some p)
    (hs : o.side = .ASK) :
    b.addResting o =
      { b with asks := insertOrderAt (fun x y => decide (x < y)) p o b.asks,
               index := b.index ++
                 [{ order_id := o.order_id, side := .ASK, price := p, owner := o.owner }] } := by
  unfold Book.addResting
  rw [hp, hs]

theorem bestBid_mem (b : Book) (pb : ℚ) (h : b.bestBid = some pb) :
    pb ∈ levelPrices b.bids := by
  obtain ⟨bids, asks, idx⟩ := b
  rcases bids with _ | ⟨l, rest⟩
  · simp [Book.bestBid] at h
  · simp only [Book.bestBid, List.head?, Option.map_some] at h
    simp only [levelPrices, List.map_cons, List.mem_cons]
    exact Or.inl (Option.some_inj.mp h).symm

theorem bestAsk_mem (b : Book) (pa : ℚ) (h : b.bestAsk = some pa) :
    pa ∈ levelPrices b.asks := by
  obtain ⟨bids, asks, idx⟩ := b
  rcases asks with _ | ⟨l, rest⟩
  · simp [Book.bestAsk] at h
  · simp only [Book.bestAsk, List.head?, Option.map_some] at h
    simp only [levelPrices, List.map_cons, List.mem_cons]
    exact Or.inl (Option.some_inj.mp h).symm

theorem bestAsk_min (b : Book) (pa : ℚ) (h : b.bestAsk = some pa)
    (hsort : b.asks.Chain' (fun l1 l2 => l1.1 < l2.1)) :
    ∀ x ∈ levelPrices b.asks, pa ≤ x := by
  have hpair := chain'_asc_pairwise _ hsort
  obtain ⟨bids, asks, idx⟩ := b
  rcases asks with _ | ⟨l, rest⟩
  · simp [levelPrices]
  · simp only [Book.bestAsk, List.head?, Option.map_some] at h
    have hl : l.1 = pa := Option.some_inj.mp h
    intro x hx
    simp only [levelPrices, List.map_cons, List.mem_cons] at hx
    rcases hx with rfl | hx
    · exact le_of_eq hl.symm
    · simp only [List.mem_map] at hx
      obtain ⟨l', hl', rfl⟩ := hx
      have := (List.pairwise_cons.mp hpair).1 l' hl'
      rw [hl] at this
      exact this.le

theorem bestBid_max (b : Book) (pb : ℚ) (h : b.bestBid = some pb)
    (hsort : b.bids.Chain' (fun l1 l2 => l2.1 < l1.1)) :
    ∀ x ∈ levelPrices b.bids, x ≤ pb := by
  have hpair := chain'_desc_pairwise _ hsort
  obtain ⟨bids, asks, idx⟩ := b
  rcases bids with _ | ⟨l, rest⟩
  · simp [levelPrices]
  · simp only [Book.bestBid, List.head?, Option.map_some] at h
    have hl : l.1 = pb := Option.some_inj.mp h
    intro x hx
    simp only [levelPrices, List.map_cons, List.mem_cons] at hx
    rcases hx with rfl | hx
    · exact le_of_eq hl
    · simp only [List.mem_map] at hx
      obtain ⟨l', hl', rfl⟩ := hx
      have := (List.pairwise_cons.mp hpair).1 l' hl'
      rw [hl] at this
      exact this.le

theorem bestAsk_none (b : Book) (h : b.bestAsk = none) : b.asks = [] := by
  obtain ⟨bids, asks, idx⟩ := b
  rcases asks with _ | ⟨l, rest⟩
  · rfl
  · simp [Book.bestAsk] at h

theorem bestBid_none (b : Book) (h : b.bestBid = none) : b.bids = [] := by
  obtain ⟨bids, asks, idx⟩ := b
  rcases bids with _ | ⟨l, rest⟩
  · rfl
  · simp [Book.bestBid] at h

theorem isMarketable_bid_false (b : Book) (o : Order) (lp a : ℚ)
    (htype : o.order_type = .LIMIT) (hs : o.side = .BID) (hp : o.price = some lp)
    (hba : b.bestAsk = some a) (h : ¬ b.isMarketable o) : lp < a := by
  unfold Book.isMarketable at h
  rw [htype, hs, hba, hp] at h
  simp only [decide_eq_true_eq] at h
  exact lt_of_not_le (fun hle => h (by simpa using hle))

theorem isMarketable_ask_false (b : Book) (o : Order) (lp bb : ℚ)
    (htype : o.order_type = .LIMIT) (hs : o.side = .ASK) (hp : o.price = some lp)
    (hbb : b.bestBid = some bb) (h : ¬ b.isMarketable o) : bb < lp := by
  unfold Book.isMarketable at h
  rw [htype, hs, hbb, hp] at h
  simp only [decide_eq_true_eq] at h
  exact lt_of_not_le (fun hle => h (by simpa using hle))

theorem levelPrices_requeue (p : ℚ) (q : List Order) (ls : List Level) :
    levelPrices (ls.map (fun l => if l.1 = p then (l.1, q) else l)) =
      levelPrices ls := by
  induction ls with
  | nil => rfl
  | cons l rest ih =>
    by_cases h : l.1 = p
    · simp only [List.map_cons, if_pos h, levelPrices] at *
      simp [ih]
    · simp only [List.map_cons, if_neg h, levelPrices] at *
      simp [ih]

theorem levelPrices_eraseP_subset (pred : Level → Bool) (ls : List Level) :
    levelPrices (ls.eraseP pred) ⊆ levelPrices ls :=
  ((List.eraseP_sublist ls).map Prod.fst).subset

theorem cancel_prices_subset (b : Book) (oid : String) :
    levelPrices ((b.cancel oid).1).bids ⊆ levelPrices b.bids ∧
      levelPrices ((b.cancel oid).1).asks ⊆ levelPrices b.asks := by
  unfold Book.cancel
  rcases hfind : b.index.find? (fun e => decide (e.order_id = oid)) with _ | e
  · simp only [hfind]
    exact ⟨fun x h => h, fun x h => h⟩
  · simp only [hfind]
    rcases hlv : (((match e.side with | .BID => b.bids | .ASK => b.asks : List Level)).find?
        (fun l => decide (l.1 = e.price))).map Prod.snd with _ | q
    · simp only [hlv]
      exact ⟨fun x h => h, fun x h => h⟩
    · simp only [hlv]
      by_cases hq : (q.any (fun o => decide (o.order_id = oid))) = true
      · simp only [hq, if_true]
        by_cases hemp : (q.eraseP (fun o => decide (o.order_id = oid))).isEmpty = true
        · simp only [hemp, if_true]
          cases e.side
          · refine ⟨?_, ?_⟩
            · intro x hx
              simp only [Book.removePriceLevel, Book.setQueue] at hx
              have h1 := levelPrices_eraseP_subset
                (fun l => decide (l.1 = e.price))
                (b.bids.map (fun l => if l.1 = e.price then
                  (l.1, q.eraseP (fun o => decide (o.order_id = oid))) else l)) hx
              rw [levelPrices_requeue] at h1
              exact h1
            · intro x hx
              simpa [Book.removePriceLevel, Book.setQueue] using hx
          · refine ⟨?_, ?_⟩
            · intro x hx
              simpa [Book.removePriceLevel, Book.setQueue] using hx
            · intro x hx
              simp only [Book.removePriceLevel, Book.setQueue] at hx
              have h1 := levelPrices_eraseP_subset
                (fun l => decide (l.1 = e.price))
                (b.asks.map (fun l => if l.1 = e.price then
                  (l.1, q.eraseP (fun o => decide (o.order_id = oid))) else l)) hx
              rw [levelPrices_requeue] at h1
              exact h1
        · simp only [hemp, Bool.false_eq_true, if_false]
          cases e.side
          · refine ⟨?_, ?_⟩
            · intro x hx
              simp only [Book.setQueue] at hx
              rw [levelPrices_requeue] at hx
              exact hx
            · intro x hx
              simpa [Book.setQueue] using hx
          · refine ⟨?_, ?_⟩
            · intro x hx
              simpa [Book.setQueue] using hx
            · intro x hx
              simp only [Book.setQueue] at hx
              rw [levelPrices_requeue] at hx
              exact hx
      · simp only [hq, if_false]
        exact ⟨fun x h => h, fun x h => h⟩

theorem uncrossed_addResting (b : Book) (o : Order) (hun : b.uncrossed)
    (hbid : o.side = .BID → ∀ p, o.price = some p →
      ∀ pa ∈ levelPrices b.asks, p < pa)
    (hask : o.side = .ASK → ∀ p, o.price = some p →
      ∀ pb ∈ levelPrices b.bids, pb < p) :
    (b.addResting o).uncrossed := by
  rcases hp : o.price with _ | p
  · rw [addResting_none _ _ hp]
    exact hun
  · cases hs : o.side with
    | BID =>
      rw [addResting_bid _ _ p hp hs]
      intro pb hpb pa hpa
      simp only at hpb hpa
      rw [insertOrderAt_prices_mem] at hpb
      rcases hpb with rfl | hpb
      · exact hbid hs pb hp pa hpa
      · exact hun pb hpb pa hpa
    | ASK =>
      rw [addResting_ask _ _ p hp hs]
      intro pb hpb pa hpa
      simp only at hpb hpa
      rw [insertOrderAt_prices_mem] at hpa
      rcases hpa with rfl | hpa
      · exact hask hs pa hp pb hpb
      · exact hun pb hpb pa hpa

theorem uncrossed_addOrder (b : Book) (o : Order) (hwf : b.WF)
    (hun : b.uncrossed) : ((b.addOrder o).1).uncrossed := by
  by_cases hm : o.order_type = .MARKET ∨ b.isMarketable o
  · cases hside : o.side with
    | BID =>
      have hmo := matchOrder_bid b o hside
      simp only [Book.addOrder, if_pos hm, hmo]
      set r := matchLevels o o.qty b.asks with hr
      have hsub : levelPrices r.levels ⊆ levelPrices b.asks :=
        (matchLevels_prices_suffix o o.qty b.asks).subset
      have hun' : (Book.mk b.bids r.levels (removeIds b.index r.removed)).uncrossed := by
        intro pb hpb pa hpa
        exact hun pb hpb pa (hsub hpa)
      by_cases hrest : o.order_type = .LIMIT ∧ 0 < r.takerQty
      · simp only [if_pos hrest]
        apply uncrossed_addResting _ _ hun'
        · intro hs' p' hp' pa hpa
          have hsome : o.price = some p' := hp'
          exact matchLevels_stop_bid o o.qty b.asks p' hside hrest.1 hsome
            (chain'_asc_pairwise _ hwf.asksSorted) (by rw [← hr]; omega) pa hpa
        · intro hs' p' hp' pb hpb
          have hc : o.side = Side.ASK := hs'
          rw [hside] at hc
          exact Side.noConfusion hc
      · simp only [if_neg hrest]
        exact hun'
    | ASK =>
      have hmo := matchOrder_ask b o hside
      simp only [Book.addOrder, if_pos hm, hmo]
      set r := matchLevels o o.qty b.bids with hr
      have hsub : levelPrices r.levels ⊆ levelPrices b.bids :=
        (matchLevels_prices_suffix o o.qty b.bids).subset
      have hun' : (Book.mk r.levels b.asks (removeIds b.index r.removed)).uncrossed := by
        intro pb hpb pa hpa
        exact hun pb (hsub hpb) pa hpa
      by_cases hrest : o.order_type = .LIMIT ∧ 0 < r.takerQty
      · simp only [if_pos hrest]
        apply uncrossed_addResting _ _ hun'
        · intro hs' p' hp' pa hpa
          have hc : o.side = Side.BID := hs'
          rw [hside] at hc
          exact Side.noConfusion hc
        · intro hs' p' hp' pb hpb
          have hsome : o.price = some p' := hp'
          exact matchLevels_stop_ask o o.qty b.bids p' hside hrest.1 hsome
            (chain'_desc_pairwise _ hwf.bidsSorted) (by rw [← hr]; omega) pb hpb
      · simp only [if_neg hrest]
        exact hun'
  · simp only [Book.addOrder, if_neg hm]
    push_neg at hm
    by_cases hrest : o.order_type = .LIMIT ∧ 0 < o.qty
    · simp only [if_pos hrest]
      apply uncrossed_addResting _ _ hun
      · intro hs' p' hp' pa hpa
        have hsome : o.price = some p' := hp'
        have hsd : o.side = Side.BID := hs'
        rcases hba : b.bestAsk with _ | a
        · rw [bestAsk_none b hba] at hpa
          simp [levelPrices] at hpa
        · have h1 : p' < a := isMarketable_bid_false b o p' a hrest.1 hsd hsome hba
            (by simpa using hm.2)
          exact h1.trans_le (bestAsk_min b a hba hwf.asksSorted pa hpa)
      · intro hs' p' hp' pb hpb
        have hsome : o.price = some p' := hp'
        have hsd : o.side = Side.ASK := hs'
        rcases hbb : b.bestBid with _ | bb
        · rw [bestBid_none b hbb] at hpb
          simp [levelPrices] at hpb
        · have h1 : bb < p' := isMarketable_ask_false b o p' bb hrest.1 hsd hsome hbb
            (by simpa using hm.2)
          exact (bestBid_max b bb hbb hwf.bidsSorted pb hpb).trans_lt h1
    · simp only [if_neg hrest]
      exact hun

theorem uncrossed_cancel (b : Book) (oid : String) (hun : b.uncrossed) :
    ((b.cancel oid).1).uncrossed := by
  intro pb hpb pa hpa
  exact hun pb ((cancel_prices_subset b oid).1 hpb) pa
    ((cancel_prices_subset b oid).2 hpa)

/-! ## Cancel-path lemmas -/

theorem allOrders_split (b : Book) :
    b.allOrders = ordersOf b.bids ++ ordersOf b.asks := by
  simp [Book.allOrders, ordersOf]

theorem restingIds_split (b : Book) :
    b.restingIds = levelIds b.bids ++ levelIds b.asks := by
  simp [Book.restingIds, allOrders_split, levelIds]

theorem mem_ordersOf (ls : List Level) (x : Order) :
    x ∈ ordersOf ls ↔ ∃ l ∈ ls, x ∈ l.2 := by
  simp only [ordersOf, List.mem_flatten, List.mem_map]
  constructor
  · rintro ⟨a, ⟨l, hl, rfl⟩, hx⟩
    exact ⟨l, hl, hx⟩
  · rintro ⟨l, hl, hx⟩
    exact ⟨l.2, ⟨l, hl, rfl⟩, hx⟩

theorem mem_levelIds (ls : List Level) (i : String) :
    i ∈ levelIds ls ↔ ∃ l ∈ ls, ∃ o ∈ l.2, o.order_id = i := by
  simp only [levelIds, List.mem_map]
  constructor
  · rintro ⟨o, ho, rfl⟩
    obtain ⟨l, hl, hol⟩ := (mem_ordersOf ls o).mp ho
    exact ⟨l, hl, o, hol, rfl⟩
  · rintro ⟨l, hl, o, hol, rfl⟩
    exact ⟨o, (mem_ordersOf ls o).mpr ⟨l, hl, hol⟩, rfl⟩

theorem mem_restingIds (b : Book) (i : String) :
    i ∈ b.restingIds ↔ ∃ o ∈ b.allOrders, o.order_id = i := by
  simp [Book.restingIds]

theorem untouched_map (p : ℚ) (q' : List Order) (ls : List Level)
    (h : ∀ x ∈ ls, x.1 ≠ p) :
    ls.map (fun l => if l.1 = p then (l.1, q') else l) = ls := by
  induction ls with
  | nil => rfl
  | cons l rest ih =>
    rw [List.map_cons, if_neg (h l (List.mem_cons_self _ _)),
      ih (fun x hx => h x (List.mem_cons_of_mem _ hx))]

theorem find_skip_pre (p : ℚ) (pre rest : List Level)
    (h : ∀ x ∈ pre, x.1 ≠ p) :
    (pre ++ rest).find? (fun l => decide (l.1 = p)) =
      rest.find? (fun l => decide (l.1 = p)) := by
  induction pre with
  | nil => rfl
  | cons l pre' ih =>
    rw [List.cons_append, List.find?_cons_of_neg, ih (fun x hx => h x (List.mem_cons_of_mem _ hx))]
    simp [h l (List.mem_cons_self _ _)]

theorem eraseP_skip_pre (pp : Level → Bool) (pre rest : List Level)
    (h : ∀ x ∈ pre, ¬ pp x) :
    (pre ++ rest).eraseP pp = pre ++ rest.eraseP pp := by
  induction pre with
  | nil => rfl
  | cons l pre' ih =>
    rw [List.cons_append, List.eraseP_cons_of_neg (h l (List.mem_cons_self _ _)),
      ih (fun x hx => h x (List.mem_cons_of_mem _ hx)), List.cons_append]

theorem map_skip_pre (p : ℚ) (q' : List Order) (pre rest : List Level)
    (h : ∀ x ∈ pre, x.1 ≠ p) :
    (pre ++ rest).map (fun l => if l.1 = p then (l.1, q') else l) =
      pre ++ rest.map (fun l => if l.1 = p then (l.1, q') else l) := by
  rw [List.map_append, untouched_map p q' pre h]

theorem level_decomp (ls : List Level) (l₀ : Level)
    (hdist : ls.Pairwise (fun a b => a.1 ≠ b.1)) (hm : l₀ ∈ ls) :
    ∃ pre post, ls = pre ++ l₀ :: post ∧ (∀ x ∈ pre, x.1 ≠ l₀.1) ∧
      (∀ x ∈ post, x.1 ≠ l₀.1) := by
  induction ls with
  | nil => simp at hm
  | cons l rest ih =>
    rcases List.mem_cons.mp hm with rfl | hm'
    · refine ⟨[], rest, by simp, by simp, ?_⟩
      intro x hx
      exact fun hc => (List.pairwise_cons.mp hdist).1 x hx hc.symm
    · obtain ⟨pre, post, heq, hpre, hpost⟩ :=
        ih (List.pairwise_cons.mp hdist).2 hm'
      refine ⟨l :: pre, post, by rw [heq, List.cons_append], ?_, hpost⟩
      intro x hx
      rcases List.mem_cons.mp hx with rfl | hx'
      · exact (List.pairwise_cons.mp hdist).1 l₀ hm'
      · exact hpre x hx'

theorem pairwise_ne_of_asc (ls : List Level)
    (h : ls.Chain' (fun l1 l2 => l1.1 < l2.1)) :
    ls.Pairwise (fun a b => a.1 ≠ b.1) :=
  (chain'_asc_pairwise ls h).imp (fun hlt => ne_of_lt hlt)

theorem pairwise_ne_of_desc (ls : List Level)
    (h : ls.Chain' (fun l1 l2 => l2.1 < l1.1)) :
    ls.Pairwise (fun a b => a.1 ≠ b.1) :=
  (chain'_desc_pairwise ls h).imp (fun hlt => ne_of_gt hlt)

theorem resting_imp_index (b : Book) (hwf : b.WF) (i : String)
    (h : i ∈ b.restingIds) : i ∈ b.indexIds := by
  rw [restingIds_split] at h
  rcases List.mem_append.mp h with h' | h'
  · obtain ⟨l, hl, o, hol, rfl⟩ := (mem_levelIds _ _).mp h'
    have := hwf.bidsIndexed l hl o hol
    simp only [Book.indexIds, List.mem_map]
    exact ⟨_, this, rfl⟩
  · obtain ⟨l, hl, o, hol, rfl⟩ := (mem_levelIds _ _).mp h'
    have := hwf.asksIndexed l hl o hol
    simp only [Book.indexIds, List.mem_map]
    exact ⟨_, this, rfl⟩

theorem index_imp_resting (b : Book) (hwf : b.WF) (i : String)
    (h : i ∈ b.indexIds) : i ∈ b.restingIds := by
  simp only [Book.indexIds, List.mem_map] at h
  obtain ⟨e, he, rfl⟩ := h
  obtain ⟨l, hl, hprice, o, hol, hid, hown⟩ := hwf.indexSound e he
  rw [restingIds_split]
  cases hs : e.side
  · rw [hs] at hl
    exact List.mem_append.mpr (Or.inl ((mem_levelIds _ _).mpr ⟨l, hl, o, hol, hid⟩))
  · rw [hs] at hl
    exact List.mem_append.mpr (Or.inr ((mem_levelIds _ _).mpr ⟨l, hl, o, hol, hid⟩))

theorem cancel_not_found (b : Book) (oid : String)
    (h : oid ∉ b.indexIds) : b.cancel oid = (b, false) := by
  have hf : b.index.find? (fun e => decide (e.order_id = oid)) = none := by
    rw [List.find?_eq_none]
    intro e he
    simp only [decide_eq_true_eq]
    exact fun hc => h (by simp only [Book.indexIds, List.mem_map]; exact ⟨e, he, hc⟩)
  unfold Book.cancel
  rw [hf]

theorem cancel_eq_bid (b : Book) (oid : String) (e : IndexEntry)
    (hfe : b.index.find? (fun x => decide (x.order_id = oid)) = some e)
    (hs : e.side = .BID)
    (pre post : List Level) (l₀ : Level)
    (hdecomp : b.bids = pre ++ l₀ :: post)
    (hl₀p : l₀.1 = e.price)
    (hpre : ∀ x ∈ pre, x.1 ≠ e.price) (hpost : ∀ x ∈ post, x.1 ≠ e.price)
    (q1 q2 : List Order) (o₀ : Order)
    (hqeq : l₀.2 = q1 ++ o₀ :: q2)
    (ho₀ : o₀.order_id = oid)
    (hq1 : ∀ x ∈ q1, x.order_id ≠ oid) :
    b.cancel oid =
      ({ b with
          bids := if q1 ++ q2 = [] then pre ++ post
                  else pre ++ (e.price, q1 ++ q2) :: post,
          index := b.index.eraseP (fun x => decide (x.order_id = oid)) }, true) := by
  have hfl : b.bids.find? (fun l => decide (l.1 = e.price)) = some l₀ := by
    rw [hdecomp, find_skip_pre e.price pre _ hpre,
      List.find?_cons_of_pos _ (by simp [hl₀p])]
  have hany : (l₀.2.any (fun o => decide (o.order_id = oid))) = true := by
    rw [List.any_eq_true]
    exact ⟨o₀, by rw [hqeq]; exact List.mem_append_right _ (List.mem_cons_self _ _),
      by simp [ho₀]⟩
  have herase : l₀.2.eraseP (fun o => decide (o.order_id = oid)) = q1 ++ q2 := by
    rw [hqeq, List.eraseP_append_right _ (by intro x hx; simp [hq1 x hx]),
      List.eraseP_cons_of_pos (by simp [ho₀])]
  have hmap : b.bids.map (fun l => if l.1 = e.price then (l.1, q1 ++ q2) else l) =
      pre ++ (e.price, q1 ++ q2) :: post := by
    rw [hdecomp, map_skip_pre e.price _ pre _ hpre, List.map_cons, if_pos hl₀p,
      untouched_map e.price _ post hpost, hl₀p]
  unfold Book.cancel
  rw [hfe]
  simp only [hs, hfl, Option.map_some']
  rw [if_pos hany]
  simp only [Book.setQueue, Book.removePriceLevel, herase, hmap]
  by_cases hqe : q1 ++ q2 = []
  · rw [if_pos (by simp [hqe]), if_pos hqe]
    have hep : (pre ++ (e.price, q1 ++ q2) :: post).eraseP
        (fun l => decide (l.1 = e.price)) = pre ++ post := by
      rw [eraseP_skip_pre _ pre _ (by intro x hx; simp [hpre x hx]),
        List.eraseP_cons_of_pos (by simp)]
    rw [hep]
  · rw [if_neg (by simpa using hqe), if_neg hqe]

theorem cancel_eq_ask (b : Book) (oid : String) (e : IndexEntry)
    (hfe : b.index.find? (fun x => decide (x.order_id = oid)) = some e)
    (hs : e.side = .ASK)
    (pre post : List Level) (l₀ : Level)
    (hdecomp : b.asks = pre ++ l₀ :: post)
    (hl₀p : l₀.1 = e.price)
    (hpre : ∀ x ∈ pre, x.1 ≠ e.price) (hpost : ∀ x ∈ post, x.1 ≠ e.price)
    (q1 q2 : List Order) (o₀ : Order)
    (hqeq : l₀.2 = q1 ++ o₀ :: q2)
    (ho₀ : o₀.order_id = oid)
    (hq1 : ∀ x ∈ q1, x.order_id ≠ oid) :
    b.cancel oid =
      ({ b with
          asks := if q1 ++ q2 = [] then pre ++ post
                  else pre ++ (e.price, q1 ++ q2) :: post,
          index := b.index.eraseP (fun x => decide (x.order_id = oid)) }, true) := by
  have hfl : b.asks.find? (fun l => decide (l.1 = e.price)) = some l₀ := by
    rw [hdecomp, find_skip_pre e.price pre _ hpre,
      List.find?_cons_of_pos _ (by simp [hl₀p])]
  have hany : (l₀.2.any (fun o => decide (o.order_id = oid))) = true := by
    rw [List.any_eq_true]
    exact ⟨o₀, by rw [hqeq]; exact List.mem_append_right _ (List.mem_cons_self _ _),
      by simp [ho₀]⟩
  have herase : l₀.2.eraseP (fun o => decide (o.order_id = oid)) = q1 ++ q2 := by
    rw [hqeq, List.eraseP_append_right _ (by intro x hx; simp [hq1 x hx]),
      List.eraseP_cons_of_pos (by simp [ho₀])]
  have hmap : b.asks.map (fun l => if l.1 = e.price then (l.1, q1 ++ q2) else l) =
      pre ++ (e.price, q1 ++ q2) :: post := by
    rw [hdecomp, map_skip_pre e.price _ pre _ hpre, List.map_cons, if_pos hl₀p,
      untouched_map e.price _ post hpost, hl₀p]
  unfold Book.cancel
  rw [hfe]
  simp only [hs, hfl, Option.map_some']
  rw [if_pos hany]
  simp only [Book.setQueue, Book.removePriceLevel, herase, hmap]
  by_cases hqe : q1 ++ q2 = []
  · rw [if_pos (by simp [hqe]), if_pos hqe]
    have hep : (pre ++ (e.price, q1 ++ q2) :: post).eraseP
        (fun l => decide (l.1 = e.price)) = pre ++ post := by
      rw [eraseP_skip_pre _ pre _ (by intro x hx; simp [hpre x hx]),
        List.eraseP_cons_of_pos (by simp)]
    rw [hep]
  · rw [if_neg (by simpa using hqe), if_neg hqe]

theorem levelIds_append (xs ys : List Level) :
    levelIds (xs ++ ys) = levelIds xs ++ levelIds ys := by
  simp [levelIds, ordersOf]

theorem levelIds_cons (l : Level) (ls : List Level) :
    levelIds (l :: ls) = l.2.map Order.order_id ++ levelIds ls := by
  simp [levelIds, ordersOf]

theorem cancel_found_charac (b : Book) (oid : String) (hwf : b.WF)
    (hin : oid ∈ b.indexIds) :
    ∃ (e : IndexEntry) (pre post : List Level) (q1 q2 : List Order) (o₀ : Order),
      e.order_id = oid ∧ o₀.order_id = oid ∧ (∀ x ∈ q1, x.order_id ≠ oid) ∧
      (∀ x ∈ pre, x.1 ≠ e.price) ∧ (∀ x ∈ post, x.1 ≠ e.price) ∧
      ((e.side = .BID ∧
          b.bids = pre ++ (e.price, q1 ++ o₀ :: q2) :: post ∧
          b.cancel oid =
            ({ b with
                bids := if q1 ++ q2 = [] then pre ++ post
                        else pre ++ (e.price, q1 ++ q2) :: post,
                index := b.index.eraseP (fun x => decide (x.order_id = oid)) }, true))
        ∨ (e.side = .ASK ∧
          b.asks = pre ++ (e.price, q1 ++ o₀ :: q2) :: post ∧
          b.cancel oid =
            ({ b with
                asks := if q1 ++ q2 = [] then pre ++ post
                        else pre ++ (e.price, q1 ++ q2) :: post,
                index := b.index.eraseP (fun x => decide (x.order_id = oid)) }, true))) := by
  have hsome : (b.index.find? (fun x => decide (x.order_id = oid))).isSome := by
    simp only [Book.indexIds, List.mem_map] at hin
    obtain ⟨e0, he0, hid⟩ := hin
    exact List.find?_isSome.mpr ⟨e0, he0, by simp [hid]⟩
  obtain ⟨e, hfe⟩ := Option.isSome_iff_exists.mp hsome
  have heid : e.order_id = oid := by simpa using List.find?_some hfe
  have hemem : e ∈ b.index := List.mem_of_find?_eq_some hfe
  obtain ⟨l₀, hl₀, hl₀p, o₁, ho₁, ho₁id, _⟩ := hwf.indexSound e hemem
  cases hs : e.side with
  | BID =>
    have hl₀' : l₀ ∈ b.bids := by rw [hs] at hl₀; exact hl₀
    obtain ⟨pre, post, hdecomp, hpre, hpost⟩ :=
      level_decomp b.bids l₀ (pairwise_ne_of_desc _ hwf.bidsSorted) hl₀'
    obtain ⟨o₀, q1, q2, hq1b, hpo₀, hqeq, herase⟩ :=
      List.exists_of_eraseP (p := fun o => decide (o.order_id = oid)) ho₁
        (by simp [ho₁id, heid])
    have ho₀id : o₀.order_id = oid := by simpa using hpo₀
    have hq1 : ∀ x ∈ q1, x.order_id ≠ oid := fun x hx => by simpa using hq1b x hx
    rw [hl₀p] at hpre hpost
    have hl₀eq : l₀ = (e.price, q1 ++ o₀ :: q2) := by
      rw [← hl₀p, ← hqeq]
    refine ⟨e, pre, post, q1, q2, o₀, heid, ho₀id, hq1, hpre, hpost,
      Or.inl ⟨hs, ?_, ?_⟩⟩
    · rw [hdecomp, hl₀eq]
    · exact cancel_eq_bid b oid e hfe hs pre post l₀ hdecomp hl₀p hpre hpost
        q1 q2 o₀ hqeq ho₀id hq1
  | ASK =>
    have hl₀' : l₀ ∈ b.asks := by rw [hs] at hl₀; exact hl₀
    obtain ⟨pre, post, hdecomp, hpre, hpost⟩ :=
      level_decomp b.asks l₀ (pairwise_ne_of_asc _ hwf.asksSorted) hl₀'
    obtain ⟨o₀, q1, q2, hq1b, hpo₀, hqeq, herase⟩ :=
      List.exists_of_eraseP (p := fun o => decide (o.order_id = oid)) ho₁
        (by simp [ho₁id, heid])
    have ho₀id : o₀.order_id = oid := by simpa using hpo₀
    have hq1 : ∀ x ∈ q1, x.order_id ≠ oid := fun x hx => by simpa using hq1b x hx
    rw [hl₀p] at hpre hpost
    have hl₀eq : l₀ = (e.price, q1 ++ o₀ :: q2) := by
      rw [← hl₀p, ← hqeq]
    refine ⟨e, pre, post, q1, q2, o₀, heid, ho₀id, hq1, hpre, hpost,
      Or.inr ⟨hs, ?_, ?_⟩⟩
    · rw [hdecomp, hl₀eq]
    · exact cancel_eq_ask b oid e hfe hs pre post l₀ hdecomp hl₀p hpre hpost
        q1 q2 o₀ hqeq ho₀id hq1

theorem cancel_restingIds (b : Book) (oid : String) (hwf : b.WF)
    (hin : oid ∈ b.indexIds) :
    ∀ i, i ∈ (b.cancel oid).1.restingIds ↔ (i ∈ b.restingIds ∧ i ≠ oid) := by
  obtain ⟨e, pre, post, q1, q2, o₀, heid, ho₀id, hq1, hpre, hpost, hcase⟩ :=
    cancel_found_charac b oid hwf hin
  have hc : b.restingIds.count oid ≤ 1 :=
    List.nodup_iff_count_le_one.mp hwf.idsNodup oid
  rcases hcase with ⟨hs, hside, hcancel⟩ | ⟨hs, hside, hcancel⟩
  · rw [restingIds_split, hside, levelIds_append, levelIds_cons] at hc
    simp only [List.map_append, List.map_cons, ho₀id, List.count_append,
      List.count_cons_self] at hc
    have hpre0 : oid ∉ levelIds pre := by
      rw [← List.count_eq_zero]
      omega
    have hq10 : oid ∉ q1.map Order.order_id := by
      rw [← List.count_eq_zero]
      omega
    have hq20 : oid ∉ q2.map Order.order_id := by
      rw [← List.count_eq_zero]
      omega
    have hpost0 : oid ∉ levelIds post := by
      rw [← List.count_eq_zero]
      omega
    have hasks0 : oid ∉ levelIds b.asks := by
      rw [← List.count_eq_zero]
      omega
    have hmem_b : ∀ i, i ∈ b.restingIds ↔
        (i ∈ levelIds pre ∨ i ∈ q1.map Order.order_id ∨ i = oid ∨
          i ∈ q2.map Order.order_id ∨ i ∈ levelIds post ∨ i ∈ levelIds b.asks) := by
      intro i
      rw [restingIds_split, hside, levelIds_append, levelIds_cons]
      simp only [List.map_append, List.map_cons, ho₀id, List.mem_append,
        List.mem_cons]
      tauto
    have hres : (b.cancel oid).1.restingIds =
        levelIds (if q1 ++ q2 = [] then pre ++ post
          else pre ++ (e.price, q1 ++ q2) :: post) ++ levelIds b.asks := by
      rw [hcancel]
      exact restingIds_split _
    have hmem_res : ∀ i, i ∈ (b.cancel oid).1.restingIds ↔
        (i ∈ levelIds pre ∨ i ∈ q1.map Order.order_id ∨
          i ∈ q2.map Order.order_id ∨ i ∈ levelIds post ∨ i ∈ levelIds b.asks) := by
      intro i
      rw [hres]
      by_cases hqe : q1 ++ q2 = []
      · obtain ⟨h1, h2⟩ := List.append_eq_nil.mp hqe
        rw [if_pos hqe, levelIds_append]
        simp [h1, h2, List.mem_append]
      · rw [if_neg hqe, levelIds_append, levelIds_cons]
        simp only [List.map_append, List.mem_append, List.mem_cons]
        tauto
    intro i
    rw [hmem_res i, hmem_b i]
    constructor
    · intro h
      have hne : i ≠ oid := by
        rintro rfl
        rcases h with h | h | h | h | h
        · exact hpre0 h
        · exact hq10 h
        · exact hq20 h
        · exact hpost0 h
        · exact hasks0 h
      refine ⟨?_, hne⟩
      rcases h with h | h | h | h | h
      · exact Or.inl h
      · exact Or.inr (Or.inl h)
      · exact Or.inr (Or.inr (Or.inr (Or.inl h)))
      · exact Or.inr (Or.inr (Or.inr (Or.inr (Or.inl h))))
      · exact Or.inr (Or.inr (Or.inr (Or.inr (Or.inr h))))
    · rintro ⟨hb', hne⟩
      rcases hb' with h | h | h | h | h | h
      · exact Or.inl h
      · exact Or.inr (Or.inl h)
      · exact absurd h hne
      · exact Or.inr (Or.inr (Or.inl h))
      · exact Or.inr (Or.inr (Or.inr (Or.inl h)))
      · exact Or.inr (Or.inr (Or.inr (Or.inr h)))
  · rw [restingIds_split, hside, levelIds_append, levelIds_cons] at hc
    simp only [List.map_append, List.map_cons, ho₀id, List.count_append,
      List.count_cons_self] at hc
    have hpre0 : oid ∉ levelIds pre := by
      rw [← List.count_eq_zero]
      omega
    have hq10 : oid ∉ q1.map Order.order_id := by
      rw [← List.count_eq_zero]
      omega
    have hq20 : oid ∉ q2.map Order.order_id := by
      rw [← List.count_eq_zero]
      omega
    have hpost0 : oid ∉ levelIds post := by
      rw [← List.count_eq_zero]
      omega
    have hbids0 : oid ∉ levelIds b.bids := by
      rw [← List.count_eq_zero]
      omega
    have hmem_b : ∀ i, i ∈ b.restingIds ↔
        (i ∈ levelIds b.bids ∨ i ∈ levelIds pre ∨ i ∈ q1.map Order.order_id ∨
          i = oid ∨ i ∈ q2.map Order.order_id ∨ i ∈ levelIds post) := by
      intro i
      rw [restingIds_split, hside, levelIds_append, levelIds_cons]
      simp only [List.map_append, List.map_cons, ho₀id, List.mem_append,
        List.mem_cons]
      tauto
    have hres : (b.cancel oid).1.restingIds =
        levelIds b.bids ++ levelIds (if q1 ++ q2 = [] then pre ++ post
          else pre ++ (e.price, q1 ++ q2) :: post) := by
      rw [hcancel]
      exact restingIds_split _
    have hmem_res : ∀ i, i ∈ (b.cancel oid).1.restingIds ↔
        (i ∈ levelIds b.bids ∨ i ∈ levelIds pre ∨ i ∈ q1.map Order.order_id ∨
          i ∈ q2.map Order.order_id ∨ i ∈ levelIds post) := by
      intro i
      rw [hres]
      by_cases hqe : q1 ++ q2 = []
      · obtain ⟨h1, h2⟩ := List.append_eq_nil.mp hqe
        rw [if_pos hqe, levelIds_append]
        simp [h1, h2, List.mem_append]
      · rw [if_neg hqe, levelIds_append, levelIds_cons]
        simp only [List.map_append, List.mem_append, List.mem_cons]
        tauto
    intro i
    rw [hmem_res i, hmem_b i]
    constructor
    · intro h
      have hne : i ≠ oid := by
        rintro rfl
        rcases h with h | h | h | h | h
        · exact hbids0 h
        · exact hpre0 h
        · exact hq10 h
        · exact hq20 h
        · exact hpost0 h
      refine ⟨?_, hne⟩
      rcases h with h | h | h | h | h
      · exact Or.inl h
      · exact Or.inr (Or.inl h)
      · exact Or.inr (Or.inr (Or.inl h))
      · exact Or.inr (Or.inr (Or.inr (Or.inr (Or.inl h))))
      · exact Or.inr (Or.inr (Or.inr (Or.inr (Or.inr h))))
    · rintro ⟨hb', hne⟩
      rcases hb' with h | h | h | h | h | h
      · exact Or.inl h
      · exact Or.inr (Or.inl h)
      · exact Or.inr (Or.inr (Or.inl h))
      · exact absurd h hne
      · exact Or.inr (Or.inr (Or.inr (Or.inl h)))
      · exact Or.inr (Or.inr (Or.inr (Or.inr h)))

theorem cancel_found_snd (b : Book) (oid : String) (hwf : b.WF)
    (hin : oid ∈ b.restingIds) : (b.cancel oid).2 = true := by
  obtain ⟨e, pre, post, q1, q2, o₀, _, _, _, _, _, hcase⟩ :=
    cancel_found_charac b oid hwf (resting_imp_index b hwf oid hin)
  rcases hcase with ⟨_, _, hcancel⟩ | ⟨_, _, hcancel⟩ <;> rw [hcancel]

theorem cancel_found_index (b : Book) (oid : String) (hwf : b.WF)
    (hin : oid ∈ b.restingIds) :
    (b.cancel oid).1.index =
      b.index.eraseP (fun x => decide (x.order_id = oid)) := by
  obtain ⟨e, pre, post, q1, q2, o₀, _, _, _, _, _, hcase⟩ :=
    cancel_found_charac b oid hwf (resting_imp_index b hwf oid hin)
  rcases hcase with ⟨_, _, hcancel⟩ | ⟨_, _, hcancel⟩ <;> rw [hcancel]

theorem eraseP_id_not_mem (idx : List IndexEntry) (oid : String)
    (hnd : (idx.map IndexEntry.order_id).Nodup) :
    oid ∉ (idx.eraseP (fun x => decide (x.order_id = oid))).map
      IndexEntry.order_id := by
  by_cases h : oid ∈ idx.map IndexEntry.order_id
  · obtain ⟨a, ha, haid⟩ := List.mem_map.mp h
    obtain ⟨a₀, l1, l2, hl1, hpa, hidx, herase⟩ :=
      List.exists_of_eraseP (p := fun x => decide (x.order_id = oid)) ha
        (by simp [haid])
    have ha₀id : a₀.order_id = oid := by simpa using hpa
    have hcnt : (idx.map IndexEntry.order_id).count oid ≤ 1 :=
      List.nodup_iff_count_le_one.mp hnd oid
    rw [hidx] at hcnt
    simp only [List.map_append, List.map_cons, ha₀id, List.count_append,
      List.count_cons_self] at hcnt
    rw [herase]
    simp only [List.map_append, List.mem_append, List.mem_map]
    rintro (⟨x, hx, hxid⟩ | ⟨x, hx, hxid⟩)
    · have : (l1.map IndexEntry.order_id).count oid = 0 := by omega
      exact absurd (List.mem_map.mpr ⟨x, hx, hxid⟩) (List.count_eq_zero.mp this)
    · have : (l2.map IndexEntry.order_id).count oid = 0 := by omega
      exact absurd (List.mem_map.mpr ⟨x, hx, hxid⟩) (List.count_eq_zero.mp this)
  · intro hc
    exact h (((List.eraseP_sublist idx).map IndexEntry.order_id).mem hc)

theorem cancel_twice_false (b : Book) (oid : String) (hwf : b.WF)
    (hin : oid ∈ b.restingIds) : (((b.cancel oid).1).cancel oid).2 = false := by
  have hnot : oid ∉ (b.cancel oid).1.indexIds := by
    show oid ∉ ((b.cancel oid).1.index.map IndexEntry.order_id)
    rw [cancel_found_index b oid hwf hin]
    exact eraseP_id_not_mem b.index oid hwf.indexNodup
  rw [cancel_not_found _ oid hnot]

/-- **C5.** `cancel(order_id)` returns `true` iff the id is currently resting
in the book; in that case the resulting resting ids are exactly the old ones
minus the cancelled id.  For an unknown id it returns `false` and leaves the
book unchanged, so cancelling the same resting id twice returns `true` then
`false`. -/
theorem c5_cancel_semantics (b : Book) (oid : String) (hwf : b.WF) :
    ((b.cancel oid).2 = true ↔ oid ∈ b.restingIds) ∧
    (oid ∉ b.restingIds → b.cancel oid = (b, false)) ∧
    (∀ i, i ∈ (b.cancel oid).1.restingIds ↔ (i ∈ b.restingIds ∧ i ≠ oid)) ∧
    (oid ∈ b.restingIds → (((b.cancel oid).1).cancel oid).2 = false) := by
  have hnoop : oid ∉ b.restingIds → b.cancel oid = (b, false) := fun h =>
    cancel_not_found b oid (fun hidx => h (index_imp_resting b hwf oid hidx))
  refine ⟨⟨?_, cancel_found_snd b oid hwf⟩, hnoop, ?_, cancel_twice_false b oid hwf⟩
  · intro hflag
    by_contra h
    rw [hnoop h] at hflag
    exact Bool.false_ne_true hflag
  · intro i
    by_cases h : oid ∈ b.restingIds
    · exact cancel_restingIds b oid hwf (resting_imp_index b hwf oid h) i
    · rw [hnoop h]
      exact ⟨fun hi => ⟨hi, fun he => h (he ▸ hi)⟩, fun hi => hi.1⟩

theorem addOrder_trades (b : Book) (o : Order) :
    (b.addOrder o).2.2 =
      if o.order_type = .MARKET ∨ b.isMarketable o then (b.matchOrder o).2.2
      else [] := by
  by_cases hm : o.order_type = .MARKET ∨ b.isMarketable o
  · simp only [Book.addOrder, if_pos hm]
  · simp only [Book.addOrder, if_neg hm]

theorem addOrder_market (b : Book) (o : Order)
    (hmkt : o.order_type = .MARKET) : b.addOrder o = b.matchOrder o := by
  have hm : o.order_type = .MARKET ∨ b.isMarketable o = true := Or.inl hmkt
  have hnl : ¬(o.order_type = .LIMIT ∧ 0 < (b.matchOrder o).2.1) := by
    rintro ⟨hl, _⟩
    rw [hmkt] at hl
    exact OrderType.noConfusion hl
  simp only [Book.addOrder, if_pos hm, if_neg hnl]

/-- **C3.** After every completed book operation (`add_order` or `cancel`)
on a well-formed uncrossed book, the book stays uncrossed: every resting bid
price is strictly below every resting ask price, and in particular
`best_bid < best_ask` whenever both are defined. -/
theorem c3_price_ordering (b : Book) (hwf : b.WF) (hun : b.uncrossed) :
    (∀ o : Order,
      ((b.addOrder o).1).uncrossed ∧
      ∀ pb pa, ((b.addOrder o).1).bestBid = some pb →
        ((b.addOrder o).1).bestAsk = some pa → pb < pa) ∧
    (∀ oid : String,
      ((b.cancel oid).1).uncrossed ∧
      ∀ pb pa, ((b.cancel oid).1).bestBid = some pb →
        ((b.cancel oid).1).bestAsk = some pa → pb < pa) := by
  constructor
  · intro o
    have h := uncrossed_addOrder b o hwf hun
    exact ⟨h, fun pb pa hb ha => h pb (bestBid_mem _ pb hb) pa (bestAsk_mem _ pa ha)⟩
  · intro oid
    have h := uncrossed_cancel b oid hun
    exact ⟨h, fun pb pa hb ha => h pb (bestBid_mem _ pb hb) pa (bestAsk_mem _ pa ha)⟩

theorem matchLevels_decomp (taker : Order) (tq : ℕ) (pre post : List Level)
    (p : ℚ) (q : List Order) :
    (∀ t ∈ (matchLevels taker tq (pre ++ (p, q) :: post)).trades,
        ∃ l ∈ pre, ∃ m ∈ l.2, t.maker_order_id = m.order_id) ∨
    (∃ ts1 ts2 tq', 0 < tq' ∧
      (matchLevels taker tq (pre ++ (p, q) :: post)).trades =
        ts1 ++ (fillQueue taker p tq' q).trades ++ ts2 ∧
      (∀ t ∈ ts1, ∃ l ∈ pre, ∃ m ∈ l.2, t.maker_order_id = m.order_id) ∧
      (∀ t ∈ ts2, ∃ l ∈ post, ∃ m ∈ l.2, t.maker_order_id = m.order_id)) := by
  induction pre generalizing tq with
  | nil =>
    by_cases h0 : tq = 0
    · left
      simp [matchLevels, h0]
    · by_cases hcross : priceCrosses taker p
      · right
        by_cases hemp : (fillQueue taker p tq q).queue = []
        · refine ⟨[], (matchLevels taker (fillQueue taker p tq q).takerQty post).trades,
            tq, by omega, ?_, by simp, ?_⟩
          · simp only [List.nil_append, matchLevels, if_neg h0, if_pos hcross,
              if_pos hemp]
          · intro t ht
            obtain ⟨l, hl, m, hm, h1, _⟩ :=
              matchLevels_trades_from taker _ post t ht
            exact ⟨l, hl, m, hm, h1⟩
        · refine ⟨[], [], tq, by omega, ?_, by simp, by simp⟩
          simp only [List.nil_append, matchLevels, if_neg h0, if_pos hcross,
            if_neg hemp]
          simp
      · left
        simp [matchLevels, h0, hcross]
  | cons l₀ rest ih =>
    obtain ⟨p₀, q₀⟩ := l₀
    by_cases h0 : tq = 0
    · left
      simp [matchLevels, h0]
    · by_cases hcross : priceCrosses taker p₀
      · by_cases hemp : (fillQueue taker p₀ tq q₀).queue = []
        · have hfrom : ∀ t ∈ (fillQueue taker p₀ tq q₀).trades,
              ∃ l ∈ (p₀, q₀) :: rest, ∃ m ∈ l.2,
                t.maker_order_id = m.order_id := by
            intro t ht
            obtain ⟨m, hm, h1, _⟩ := fillQueue_trades_from taker p₀ tq q₀ t ht
            exact ⟨(p₀, q₀), List.mem_cons_self _ _, m, hm, h1⟩
          rcases ih (fillQueue taker p₀ tq q₀).takerQty with
            hrec | ⟨ts1, ts2, tq', htq', heq, hts1, hts2⟩
          · left
            intro t ht
            simp only [List.cons_append, matchLevels, if_neg h0, if_pos hcross,
              if_pos hemp, List.mem_append] at ht
            rcases ht with ht | ht
            · exact hfrom t ht
            · obtain ⟨l, hl, hrest⟩ := hrec t ht
              exact ⟨l, List.mem_cons_of_mem _ hl, hrest⟩
          · right
            refine ⟨(fillQueue taker p₀ tq q₀).trades ++ ts1, ts2, tq', htq',
              ?_, ?_, hts2⟩
            · simp only [List.cons_append, matchLevels, if_neg h0, if_pos hcross,
                if_pos hemp, List.append_eq]
              rw [heq]
              simp [List.append_assoc]
            · intro t ht
              rcases List.mem_append.mp ht with ht | ht
              · exact hfrom t ht
              · obtain ⟨l, hl, hrest⟩ := hts1 t ht
                exact ⟨l, List.mem_cons_of_mem _ hl, hrest⟩
        · left
          intro t ht
          simp only [List.cons_append, matchLevels, if_neg h0, if_pos hcross,
            if_neg hemp] at ht
          obtain ⟨m, hm, h1, _⟩ := fillQueue_trades_from taker p₀ tq q₀ t ht
          exact ⟨(p₀, q₀), List.mem_cons_self _ _, m, hm, h1⟩
      · left
        simp [matchLevels, h0, hcross]

theorem c4_nodup_facts (b : Book) (A B : Order) (p : ℚ)
    (pre post : List Level) (rest : List Order) (hwf : b.WF)
    (hlev : b.asks = pre ++ (p, A :: B :: rest) :: post) :
    A.order_id ≠ B.order_id ∧
    A.order_id ∉ levelIds pre ∧ B.order_id ∉ levelIds pre ∧
    A.order_id ∉ levelIds post ∧ B.order_id ∉ levelIds post := by
  have hnd := List.nodup_iff_count_le_one.mp hwf.idsNodup
  have hA := hnd A.order_id
  have hB := hnd B.order_id
  rw [restingIds_split, hlev, levelIds_append, levelIds_cons] at hA hB
  simp only [List.map_cons, List.count_append, List.count_cons_self] at hA hB
  have hA2 : (B.order_id :: rest.map Order.order_id).count A.order_id = 0 := by
    omega
  have hAB : A.order_id ≠ B.order_id := by
    intro he
    exact List.count_eq_zero.mp hA2 (he ▸ List.mem_cons_self _ _)
  have hxB : 0 < (A.order_id :: B.order_id ::
      rest.map Order.order_id).count B.order_id := by
    rw [List.count_cons_of_ne (fun he => hAB he.symm)]
    simp
  refine ⟨hAB, ?_, ?_, ?_, ?_⟩
  · exact List.count_eq_zero.mp (by omega)
  · exact List.count_eq_zero.mp (by omega)
  · exact List.count_eq_zero.mp (by omega)
  · exact List.count_eq_zero.mp (by omega)

/-- **C4.** Matching is strict FIFO within a price level: if resting orders
`A` (earlier) and `B` (later) sit in that order in the queue of one ask
level and an incoming buy order produces any trade against `B`, then the
trade list contains a trade consuming all of `A`'s quantity immediately
before the first trade against `B`, and no earlier trade touches `A` or
`B`. -/
theorem c4_fifo_fairness (b : Book) (o A B : Order) (p : ℚ)
    (pre post : List Level) (rest : List Order) (hwf : b.WF)
    (hside : o.side = .BID)
    (hlev : b.asks = pre ++ (p, A :: B :: rest) :: post)
    (hB : ∃ t ∈ (b.addOrder o).2.2, t.maker_order_id = B.order_id) :
    ∃ ts1 ts2 qB,
      (b.addOrder o).2.2 =
        ts1 ++ mkTrade o A p A.qty :: mkTrade o B p qB :: ts2 ∧
      ∀ t ∈ ts1, t.maker_order_id ≠ A.order_id ∧
        t.maker_order_id ≠ B.order_id := by
  obtain ⟨hAB, hApre, hBpre, hApost, hBpost⟩ :=
    c4_nodup_facts b A B p pre post rest hwf hlev
  by_cases hm : o.order_type = .MARKET ∨ b.isMarketable o
  case neg =>
    exfalso
    obtain ⟨t, ht, _⟩ := hB
    rw [addOrder_trades, if_neg hm] at ht
    exact List.not_mem_nil t ht
  case pos =>
  have htr : (b.addOrder o).2.2 =
      (matchLevels o o.qty (pre ++ (p, A :: B :: rest) :: post)).trades := by
    rw [addOrder_trades, if_pos hm, matchOrder_bid b o hside, ← hlev]
  rw [htr] at hB ⊢
  rcases matchLevels_decomp o o.qty pre post p (A :: B :: rest) with
    hall | ⟨ts1, ts2, tq', htq', heq, hts1, hts2⟩
  · exfalso
    obtain ⟨t, ht, htB⟩ := hB
    obtain ⟨l, hl, m, hm', hmid⟩ := hall t ht
    exact hBpre ((mem_levelIds pre B.order_id).mpr
      ⟨l, hl, m, hm', by rw [← hmid]; exact htB⟩)
  · obtain ⟨t, ht, htB⟩ := hB
    rw [heq] at ht
    rcases List.mem_append.mp ht with ht' | ht2
    · rcases List.mem_append.mp ht' with ht1 | htf
      · exfalso
        obtain ⟨l, hl, m, hm', hmid⟩ := hts1 t ht1
        exact hBpre ((mem_levelIds pre B.order_id).mpr
          ⟨l, hl, m, hm', by rw [← hmid]; exact htB⟩)
      · obtain ⟨ts, hfq, _⟩ :=
          fillQueue_fifo o p tq' A B rest hAB ⟨t, htf, htB⟩
        refine ⟨ts1, ts ++ ts2, min (tq' - A.qty) B.qty, ?_, ?_⟩
        · rw [heq, hfq]
          simp [List.append_assoc]
        · intro t' ht1'
          obtain ⟨l, hl, m, hm', hmid⟩ := hts1 t' ht1'
          constructor
          · intro he
            exact hApre ((mem_levelIds pre A.order_id).mpr
              ⟨l, hl, m, hm', by rw [← hmid]; exact he⟩)
          · intro he
            exact hBpre ((mem_levelIds pre B.order_id).mpr
              ⟨l, hl, m, hm', by rw [← hmid]; exact he⟩)
    · exfalso
      obtain ⟨l, hl, m, hm', hmid⟩ := hts2 t ht2
      exact hBpost ((mem_levelIds post B.order_id).mpr
        ⟨l, hl, m, hm', by rw [← hmid]; exact htB⟩)

theorem fillQueue_ids_subset (taker : Order) (price : ℚ) (tq : ℕ)
    (q : List Order) :
    ∀ i ∈ (fillQueue taker price tq q).queue.map Order.order_id,
      i ∈ q.map Order.order_id := by
  induction q generalizing tq with
  | nil => simp [fillQueue]
  | cons maker rest ih =>
    intro i hi
    by_cases h0 : tq = 0
    · simpa [fillQueue, h0] using hi
    · by_cases hfull : maker.qty - min tq maker.qty = 0
      · simp only [fillQueue, if_neg h0, if_pos hfull] at hi
        simp only [List.map_cons, List.mem_cons]
        exact Or.inr (ih _ i hi)
      · simp only [fillQueue, if_neg h0, if_neg hfull, List.map_cons,
          List.mem_cons] at hi ⊢
        exact hi

theorem matchLevels_ids_subset (taker : Order) (tq : ℕ) (ls : List Level) :
    ∀ i ∈ levelIds (matchLevels taker tq ls).levels, i ∈ levelIds ls := by
  induction ls generalizing tq with
  | nil => simp [matchLevels]
  | cons l rest ih =>
    obtain ⟨p, q⟩ := l
    intro i hi
    by_cases h0 : tq = 0
    · simpa [matchLevels, h0] using hi
    · by_cases hcross : priceCrosses taker p
      · simp only [matchLevels, if_neg h0, if_pos hcross] at hi
        by_cases hemp : (fillQueue taker p tq q).queue = []
        · rw [if_pos hemp] at hi
          rw [levelIds_cons]
          exact List.mem_append.mpr (Or.inr (ih _ i hi))
        · rw [if_neg hemp] at hi
          rw [levelIds_cons] at hi ⊢
          rcases List.mem_append.mp hi with h | h
          · exact List.mem_append.mpr
              (Or.inl (fillQueue_ids_subset taker p tq q i h))
          · exact List.mem_append.mpr (Or.inr h)
      · simpa [matchLevels, h0, hcross] using hi

/-- **C6.** A `MARKET` buy whose quantity is at least the total resting ask
depth fills exactly the available depth (the trades sum to that depth), the
remainder is reported back but never rested (the ask side is fully drained
and no new resting ids appear, so a fresh taker id never shows up among the
open orders), and the operation is total — no error is raised.  More
generally a `MARKET` order never rests in the book. -/
theorem c6_market_exceeding_depth (b : Book) (o : Order) (hwf : b.WF)
    (hmkt : o.order_type = .MARKET) (hside : o.side = .BID)
    (hfresh : o.order_id ∉ b.restingIds) :
    (∀ i ∈ (b.addOrder o).1.restingIds, i ∈ b.restingIds) ∧
    o.order_id ∉ (b.addOrder o).1.restingIds ∧
    (levelsQty b.asks ≤ o.qty →
      tradesQty (b.addOrder o).2.2 = levelsQty b.asks ∧
      (b.addOrder o).2.1 = o.qty - levelsQty b.asks ∧
      (b.addOrder o).1.asks = []) := by
  rw [addOrder_market b o hmkt, matchOrder_bid b o hside]
  have hsub : ∀ i ∈ ({ b with
      asks := (matchLevels o o.qty b.asks).levels,
      index := removeIds b.index (matchLevels o o.qty b.asks).removed } :
        Book).restingIds, i ∈ b.restingIds := by
    intro i hi
    rw [restingIds_split] at hi ⊢
    rcases List.mem_append.mp hi with h | h
    · exact List.mem_append.mpr (Or.inl h)
    · exact List.mem_append.mpr
        (Or.inr (matchLevels_ids_subset o o.qty b.asks i h))
  refine ⟨hsub, fun hc => hfresh (hsub _ hc), fun hle => ?_⟩
  have hcons := matchLevels_conservation o o.qty b.asks
  have hdr := matchLevels_drain o o.qty b.asks
    (fun l hl o' ho' => hwf.qtyPos o'
      (by rw [allOrders_split]
          exact List.mem_append.mpr
            (Or.inr ((mem_ordersOf _ _).mpr ⟨l, hl, ho'⟩))))
    hwf.asksNonempty hmkt hle
  have h1 := hcons.1
  have h2 := hdr.2
  refine ⟨?_, ?_, ?_⟩
  · show tradesQty (matchLevels o o.qty b.asks).trades = levelsQty b.asks
    omega
  · show (matchLevels o o.qty b.asks).takerQty = o.qty - levelsQty b.asks
    exact hdr.2
  · show (matchLevels o o.qty b.asks).levels = []
    exact hdr.1

/-- **C10.** Every trade returned by `add_order` carries the taker's id, has
quantity at least 1, executes at the price of the resting level of its maker
on the opposing side (never at the taker's own limit price when that
differs), and never exceeds the maker's resting quantity; moreover the
trades of one call sum to at most the taker's quantity. -/
theorem c10_trade_properties (b : Book) (o : Order) (hwf : b.WF) :
    (∀ t ∈ (b.addOrder o).2.2,
      1 ≤ t.qty ∧ t.taker_order_id = o.order_id ∧
      ∃ l ∈ (match o.side with | .BID => b.asks | .ASK => b.bids),
        ∃ maker ∈ l.2, t.maker_order_id = maker.order_id ∧
          t.price = l.1 ∧ t.qty ≤ maker.qty) ∧
    tradesQty (b.addOrder o).2.2 ≤ o.qty := by
  by_cases hm : o.order_type = .MARKET ∨ b.isMarketable o
  case neg =>
    rw [addOrder_trades, if_neg hm]
    simp [tradesQty]
  case pos =>
  cases hside : o.side with
  | BID =>
    have htr : (b.addOrder o).2.2 = (matchLevels o o.qty b.asks).trades := by
      rw [addOrder_trades, if_pos hm, matchOrder_bid b o hside]
    rw [htr]
    constructor
    · intro t ht
      obtain ⟨l, hl, maker, hmk, h1, h2, h3, h4, h5⟩ :=
        matchLevels_trades_from o o.qty b.asks t ht
      have hq : 0 < maker.qty := hwf.qtyPos maker (by
        rw [allOrders_split]
        exact List.mem_append.mpr (Or.inr ((mem_ordersOf _ _).mpr ⟨l, hl, hmk⟩)))
      exact ⟨h4 hq, h5, l, hl, maker, hmk, h1, h2, h3⟩
    · have := (matchLevels_conservation o o.qty b.asks).1
      omega
  | ASK =>
    have htr : (b.addOrder o).2.2 = (matchLevels o o.qty b.bids).trades := by
      rw [addOrder_trades, if_pos hm, matchOrder_ask b o hside]
    rw [htr]
    constructor
    · intro t ht
      obtain ⟨l, hl, maker, hmk, h1, h2, h3, h4, h5⟩ :=
        matchLevels_trades_from o o.qty b.bids t ht
      have hq : 0 < maker.qty := hwf.qtyPos maker (by
        rw [allOrders_split]
        exact List.mem_append.mpr (Or.inl ((mem_ordersOf _ _).mpr ⟨l, hl, hmk⟩)))
      exact ⟨h4 hq, h5, l, hl, maker, hmk, h1, h2, h3⟩
    · have := (matchLevels_conservation o o.qty b.bids).1
      omega

/-! ## Active-id bookkeeping lemmas (`active_order_ids` flow) -/

theorem updatePosition_active (mm : MarketMaker) (sign : ℤ) (qty : ℕ)
    (price : ℚ) :
    (mm.updatePosition sign qty price).active_order_ids =
      mm.active_order_ids := by
  unfold MarketMaker.updatePosition
  dsimp only
  split_ifs <;> rfl

theorem applyFill_active (mm : MarketMaker) (side : Side) (price : ℚ)
    (qty : ℕ) :
    (mm.applyFill side price qty).active_order_ids = mm.active_order_ids := by
  unfold MarketMaker.applyFill
  exact updatePosition_active _ _ _ _

theorem onTrade_active (mm : MarketMaker) (t : Trade) :
    (mm.onTrade t).active_order_ids = mm.active_order_ids := by
  unfold MarketMaker.onTrade
  split_ifs <;> first | rfl | exact applyFill_active _ _ _ _

theorem foldl_mm_active (g : MarketMaker → Trade → MarketMaker)
    (hg : ∀ mm t, (g mm t).active_order_ids = mm.active_order_ids) :
    ∀ (ts : List Trade) (mm : MarketMaker),
      (ts.foldl g mm).active_order_ids = mm.active_order_ids := by
  intro ts
  induction ts with
  | nil => intro mm; rfl
  | cons t rest ih =>
    intro mm
    rw [List.foldl_cons, ih, hg]

theorem processTrades_active (s : SimState) (ts : List Trade) :
    (s.processTrades ts).mm.active_order_ids = s.mm.active_order_ids := by
  unfold SimState.processTrades
  by_cases he : ts.isEmpty = true
  · rw [if_pos he]
  · rw [if_neg he]
    exact foldl_mm_active _
      (fun mm t => by
        dsimp only
        by_cases hc : mm.fills.length < (mm.onTrade t).fills.length
        · rw [if_pos hc]
          exact onTrade_active mm t
        · rw [if_neg hc]
          exact onTrade_active mm t)
      ts s.mm

theorem schedule_active (s : SimState) (et : EventType) (t? : Option ℚ)
    (pl : EventPayload) :
    (s.schedule et t? pl).mm.active_order_ids = s.mm.active_order_ids := by
  unfold SimState.schedule
  cases t? <;> rfl

theorem snapshot_active (s : SimState) (ev : String) :
    (s.snapshot ev).mm.active_order_ids = s.mm.active_order_ids := by
  unfold SimState.snapshot
  cases s.book.midPrice <;> rfl

theorem handleLimitArrival_active (s : SimState) :
    s.handleLimitArrival.mm.active_order_ids = s.mm.active_order_ids := by
  unfold SimState.handleLimitArrival
  exact processTrades_active _ _

theorem handleMarketArrival_active (s : SimState) :
    s.handleMarketArrival.mm.active_order_ids = s.mm.active_order_ids := by
  unfold SimState.handleMarketArrival
  split
  split_ifs <;> exact processTrades_active _ _

theorem handleCancelArrival_active (s : SimState) :
    s.handleCancelArrival.mm.active_order_ids = s.mm.active_order_ids := by
  unfold SimState.handleCancelArrival
  dsimp only
  split_ifs with he
  · rfl
  · split <;> rfl

theorem applyImmediateFundamentalImpact_active (s : SimState) (sig jt : ℤ)
    (src : String) :
    (s.applyImmediateFundamentalImpact sig jt src).mm.active_order_ids =
      s.mm.active_order_ids := by
  unfold SimState.applyImmediateFundamentalImpact
  dsimp only
  split_ifs <;> first | rfl | exact processTrades_active _ _

theorem handleFundamentalMove_active (s : SimState) (pl : EventPayload) :
    (s.handleFundamentalMove pl).mm.active_order_ids =
      s.mm.active_order_ids := by
  unfold SimState.handleFundamentalMove
  cases pl.signal <;> dsimp only <;> split_ifs <;>
    first | rfl | exact applyImmediateFundamentalImpact_active _ _ _ _

theorem applySlowAdapt_active (s : SimState) :
    (s.applySlowFundamentalAdaptation).2.mm.active_order_ids =
      s.mm.active_order_ids := by
  unfold SimState.applySlowFundamentalAdaptation
  dsimp only
  split_ifs <;> first | rfl | exact processTrades_active _ _

theorem scheduleNextExo_active (s : SimState) :
    s.scheduleNextExogenousFundamentalMove.mm.active_order_ids =
      s.mm.active_order_ids := by
  unfold SimState.scheduleNextExogenousFundamentalMove
  split
  split <;> first | rfl | exact schedule_active _ _ _ _

theorem makeQuotes_fst_length (mm : MarketMaker) (t mid : ℚ)
    (bb ba : Option ℚ) (f : OrderFactory) :
    (mm.makeQuotes t mid bb ba f).1.length = 2 := by
  rcases hp : mm.quotePrices mid bb ba with ⟨bidP, askP⟩
  unfold MarketMaker.makeQuotes
  rw [hp]
  rfl

theorem foldl_active_le (f : SimState → Order → SimState)
    (hf : ∀ s o, (f s o).mm.active_order_ids = s.mm.active_order_ids ∨
      (f s o).mm.active_order_ids = s.mm.active_order_ids ++ [o.order_id]) :
    ∀ (quotes : List Order) (s : SimState),
      (quotes.foldl f s).mm.active_order_ids.length ≤
        s.mm.active_order_ids.length + quotes.length := by
  intro quotes
  induction quotes with
  | nil => intro s; simp
  | cons q rest ih =>
    intro s
    rw [List.foldl_cons]
    refine (ih (f s q)).trans ?_
    rcases hf s q with h | h <;>
      simp only [h, List.length_append, List.length_cons, List.length_nil] <;>
      omega

theorem handleMMQuoteUpdate_active_len (s : SimState) :
    s.handleMMQuoteUpdate.mm.active_order_ids.length ≤ 2 := by
  unfold SimState.handleMMQuoteUpdate
  dsimp only
  refine le_trans (foldl_active_le _ ?_ _ _) ?_
  · intro s' o
    dsimp only
    by_cases hr : 0 < (s'.book.addOrder o).2.1
    · rw [if_pos hr]
      right
      show (SimState.processTrades _ _).mm.active_order_ids ++ [o.order_id] =
        s'.mm.active_order_ids ++ [o.order_id]
      rw [processTrades_active]
    · rw [if_neg hr]
      left
      exact processTrades_active _ _
  · rw [makeQuotes_fst_length]
    simp

/-- **C8** (amended).  Between simulator events `active_order_ids` is not
always exactly the set of the agent's currently resting order ids — a quote
that is fully filled between refreshes leaves its stale id in the set until
the next `_handle_mm_quote_update` (see the counterexample).  What does hold
at every point is the size bound: a quote refresh rebuilds the set from the
at most two freshly placed quote ids, and every other state transition of
the event loop (arrival handlers, fundamental moves, slow adaptation, trade
processing, scheduling, snapshots) leaves the set unchanged. -/
theorem c8_active_ids_bound (s : SimState)
    (h2 : s.mm.active_order_ids.length ≤ 2) :
    s.handleMMQuoteUpdate.mm.active_order_ids.length ≤ 2 ∧
    s.handleLimitArrival.mm.active_order_ids.length ≤ 2 ∧
    s.handleLimitArrival.mm.active_order_ids = s.mm.active_order_ids ∧
    s.handleMarketArrival.mm.active_order_ids = s.mm.active_order_ids ∧
    s.handleCancelArrival.mm.active_order_ids = s.mm.active_order_ids ∧
    (∀ pl, (s.handleFundamentalMove pl).mm.active_order_ids =
      s.mm.active_order_ids) ∧
    (s.applySlowFundamentalAdaptation).2.mm.active_order_ids =
      s.mm.active_order_ids ∧
    (∀ ts, (s.processTrades ts).mm.active_order_ids =
      s.mm.active_order_ids) ∧
    (∀ ev, (s.snapshot ev).mm.active_order_ids = s.mm.active_order_ids) ∧
    (∀ et t pl, (s.schedule et t pl).mm.active_order_ids =
      s.mm.active_order_ids) := by
  refine ⟨handleMMQuoteUpdate_active_len s, ?_,
    handleLimitArrival_active s, handleMarketArrival_active s,
    handleCancelArrival_active s, handleFundamentalMove_active s,
    applySlowAdapt_active s, processTrades_active s,
    snapshot_active s, schedule_active s⟩
  rw [handleLimitArrival_active]
  exact h2

/-- **C2.** For a `MarketMaker` that starts flat with zero cash
(`inventory = 0`, `cash = 0`, `initial_cash = 0`), after any sequence of
`on_trade` calls and for every mid price `m`,
`realized_pnl + unrealized_pnl(m)` (i.e. `total_pnl(m)`) equals
`mark_to_market(m) = cash + inventory·m − initial_cash`, exactly, over the
exact rational arithmetic of this embedding. -/
theorem c2_pnl_reconciliation (cfg : MarketMakerConfig) (tick : ℚ)
    (ts : List Trade) (m : ℚ) :
    (ts.foldl MarketMaker.onTrade (mmFlat cfg tick)).totalPnl m =
      (ts.foldl MarketMaker.onTrade (mmFlat cfg tick)).markToMarket m := by
  refine totalPnl_eq_markToMarket _ _ (pnlInvariant_foldl _ _ ?_)
  unfold pnlInvariant mmFlat
  norm_num

/-! ## Rounding lemmas, the quote clamp (C7), determinism (C9) -/

theorem pyRound_intCast (n : ℤ) : pyRound (n : ℚ) = n := by
  unfold pyRound
  dsimp only
  rw [Int.floor_intCast]
  norm_num

theorem pyRound_add_even (x : ℚ) (m : ℤ) :
    pyRound (x + 2 * (m : ℚ)) = pyRound x + 2 * m := by
  unfold pyRound
  dsimp only
  have hcast : x + 2 * (m : ℚ) = x + ((2 * m : ℤ) : ℚ) := by push_cast; ring
  rw [hcast, Int.floor_add_int]
  have hr : x + ((2 * m : ℤ) : ℚ) - ((⌊x⌋ + 2 * m : ℤ) : ℚ) =
      x - (⌊x⌋ : ℚ) := by
    push_cast
    ring
  rw [hr]
  have hev : Even (⌊x⌋ + 2 * m) ↔ Even ⌊x⌋ := by
    simp [Int.even_add]
  simp only [hev]
  split_ifs <;> omega

theorem roundToTick_grid (k : ℕ) (hk : 0 < k) (j : ℤ) :
    roundToTick ((k : ℚ) / 10 ^ 10) ((j : ℚ) * ((k : ℚ) / 10 ^ 10)) =
      (j : ℚ) * ((k : ℚ) / 10 ^ 10) := by
  have hkq : (k : ℚ) ≠ 0 := Nat.cast_ne_zero.mpr hk.ne'
  unfold roundToTick roundTo10
  have h1 : (j : ℚ) * ((k : ℚ) / 10 ^ 10) / ((k : ℚ) / 10 ^ 10) = (j : ℚ) := by
    field_simp
  rw [h1, pyRound_intCast]
  have h2 : (j : ℚ) * ((k : ℚ) / 10 ^ 10) * 10 ^ 10 =
      ((j * (k : ℤ) : ℤ) : ℚ) := by
    push_cast
    field_simp
  rw [h2, pyRound_intCast]
  push_cast
  ring

theorem roundToTick_two_tick_lt (k : ℕ) (hk : 0 < k) (v : ℚ) :
    roundToTick ((k : ℚ) / 10 ^ 10) v <
      roundToTick ((k : ℚ) / 10 ^ 10) (v + 2 * ((k : ℚ) / 10 ^ 10)) := by
  have hkq : (k : ℚ) ≠ 0 := Nat.cast_ne_zero.mpr hk.ne'
  unfold roundToTick roundTo10
  have h1 : (v + 2 * ((k : ℚ) / 10 ^ 10)) / ((k : ℚ) / 10 ^ 10) =
      v / ((k : ℚ) / 10 ^ 10) + 2 * ((1 : ℤ) : ℚ) := by
    push_cast
    field_simp
  rw [h1, pyRound_add_even]
  have h2 : ((pyRound (v / ((k : ℚ) / 10 ^ 10)) + 2 * 1 : ℤ) : ℚ) *
        ((k : ℚ) / 10 ^ 10) * 10 ^ 10 =
      (pyRound (v / ((k : ℚ) / 10 ^ 10)) : ℚ) * ((k : ℚ) / 10 ^ 10) * 10 ^ 10 +
        2 * ((k : ℤ) : ℚ) := by
    push_cast
    field_simp
    ring
  rw [h2, pyRound_add_even]
  have h10 : (0 : ℚ) < 10 ^ 10 := by norm_num
  rw [div_lt_div_iff_of_pos_right h10]
  have hkz : (0 : ℤ) < (k : ℤ) := by exact_mod_cast hk
  have hlt : pyRound ((pyRound (v / ((k : ℚ) / 10 ^ 10)) : ℚ) *
        ((k : ℚ) / 10 ^ 10) * 10 ^ 10) <
      pyRound ((pyRound (v / ((k : ℚ) / 10 ^ 10)) : ℚ) *
        ((k : ℚ) / 10 ^ 10) * 10 ^ 10) + 2 * (k : ℤ) := by
    omega
  exact_mod_cast hlt

theorem quotePrices_eq (mm : MarketMaker) (mid : ℚ) (bb ba : Option ℚ) :
    mm.quotePrices mid bb ba =
      if (mm.clampedQuotePrices mid bb ba).2 ≤
          (mm.clampedQuotePrices mid bb ba).1 then
        (roundToTick mm.tick_size (mid - mm.tick_size),
         roundToTick mm.tick_size (mid + mm.tick_size))
      else mm.clampedQuotePrices mid bb ba := by
  unfold MarketMaker.quotePrices
  rfl

theorem clampedQuotePrices_fst_some (mm : MarketMaker) (mid : ℚ)
    (bb : Option ℚ) (a : ℚ) :
    (mm.clampedQuotePrices mid bb (some a)).1 =
      min (mm.rawQuotePrices mid).1
        (roundToTick mm.tick_size (a - mm.tick_size)) := by
  unfold MarketMaker.clampedQuotePrices
  rfl

theorem clampedQuotePrices_snd_some (mm : MarketMaker) (mid : ℚ)
    (ba : Option ℚ) (b : ℚ) :
    (mm.clampedQuotePrices mid (some b) ba).2 =
      max (mm.rawQuotePrices mid).2
        (roundToTick mm.tick_size (b + mm.tick_size)) := by
  unfold MarketMaker.clampedQuotePrices
  rfl

/-- **C7.** On a tick that lies on the `10⁻¹⁰` rounding grid, every call to
`make_quotes` returns a bid strictly below its ask; when the clamped pair
does not collapse, the quoted bid is at most `best_ask − tick` and the
quoted ask at least `best_bid + tick` whenever that side exists and lies on
the tick grid — the agent never crosses or locks the existing book; when
clamping collapses the pair, the result is exactly the fallback
one-tick-wide pair around mid, rounded to tick. -/
theorem c7_quote_clamping (mm : MarketMaker) (mid : ℚ)
    (bestB bestA : Option ℚ) (k : ℕ) (hk : 0 < k)
    (htick : mm.tick_size = (k : ℚ) / 10 ^ 10) :
    ((mm.quotePrices mid bestB bestA).1 <
      (mm.quotePrices mid bestB bestA).2) ∧
    (¬((mm.clampedQuotePrices mid bestB bestA).2 ≤
        (mm.clampedQuotePrices mid bestB bestA).1) →
      (∀ a : ℚ, bestA = some a → (∃ j : ℤ, a = (j : ℚ) * mm.tick_size) →
        (mm.quotePrices mid bestB bestA).1 ≤ a - mm.tick_size) ∧
      (∀ b : ℚ, bestB = some b → (∃ j : ℤ, b = (j : ℚ) * mm.tick_size) →
        b + mm.tick_size ≤ (mm.quotePrices mid bestB bestA).2)) ∧
    ((mm.clampedQuotePrices mid bestB bestA).2 ≤
        (mm.clampedQuotePrices mid bestB bestA).1 →
      mm.quotePrices mid bestB bestA =
        (roundToTick mm.tick_size (mid - mm.tick_size),
         roundToTick mm.tick_size (mid + mm.tick_size))) := by
  by_cases hcol : (mm.clampedQuotePrices mid bestB bestA).2 ≤
      (mm.clampedQuotePrices mid bestB bestA).1
  · rw [quotePrices_eq, if_pos hcol]
    refine ⟨?_, fun hc => absurd hcol hc, fun _ => rfl⟩
    show roundToTick mm.tick_size (mid - mm.tick_size) <
      roundToTick mm.tick_size (mid + mm.tick_size)
    rw [htick]
    have harg : mid + (k : ℚ) / 10 ^ 10 =
        (mid - (k : ℚ) / 10 ^ 10) + 2 * ((k : ℚ) / 10 ^ 10) := by
      ring
    rw [harg]
    exact roundToTick_two_tick_lt k hk (mid - (k : ℚ) / 10 ^ 10)
  · rw [quotePrices_eq, if_neg hcol]
    refine ⟨not_le.mp hcol, fun _ => ⟨?_, ?_⟩, fun hc => absurd hc hcol⟩
    · rintro a ha ⟨j, hj⟩
      subst ha
      rw [clampedQuotePrices_fst_some]
      have hgrid : roundToTick mm.tick_size (a - mm.tick_size) =
          a - mm.tick_size := by
        rw [htick]
        have h3 : a - (k : ℚ) / 10 ^ 10 =
            ((j - 1 : ℤ) : ℚ) * ((k : ℚ) / 10 ^ 10) := by
          rw [hj, htick]
          push_cast
          ring
        rw [h3]
        exact roundToTick_grid k hk (j - 1)
      exact (min_le_right _ _).trans (le_of_eq hgrid)
    · rintro b hb ⟨j, hj⟩
      subst hb
      rw [clampedQuotePrices_snd_some]
      have hgrid : roundToTick mm.tick_size (b + mm.tick_size) =
          b + mm.tick_size := by
        rw [htick]
        have h3 : b + (k : ℚ) / 10 ^ 10 =
            ((j + 1 : ℤ) : ℚ) * ((k : ℚ) / 10 ^ 10) := by
          rw [hj, htick]
          push_cast
          ring
        rw [h3]
        exact roundToTick_grid k hk (j + 1)
      exact (le_of_eq hgrid.symm).trans (le_max_right _ _)

/-- **C9.** The bounded event loop is a pure function of the configuration:
two runs with equal `SimulatorConfig`s (same seed and all other fields)
produce identical snapshot sequences, trade sequences and agent fill logs.
(The numpy generator itself is external library code; its draws are
spec-modelled as the deterministic function `rngDraw` of the seed, so the
loop is a function of the config alone.) -/
theorem c9_determinism (c1 c2 : SimulatorConfig) (fuel : ℕ) (h : c1 = c2) :
    (runSim c1 fuel).snapshots = (runSim c2 fuel).snapshots ∧
    (runSim c1 fuel).trades = (runSim c2 fuel).trades ∧
    (runSim c1 fuel).mm_fills = (runSim c2 fuel).mm_fills := by
  subst h
  exact ⟨rfl, rfl, rfl⟩

/-! ## Concrete evaluations

Batteries marks the `ℚ` arithmetic kernels irreducible; they are restored to
semireducible here so that `decide` can evaluate the book and simulator on
the concrete inputs below. -/

set_option allowUnsafeReducibility true
attribute [semireducible] Rat.mul Rat.add Rat.sub Rat.div Rat.neg Rat.inv
  Rat.normalize Rat.divInt Rat.blt Rat.ofScientific Rat.floor

/-- **C1** (counterexample).  Seeding 3 levels × qty 20 per side at
`base_price = 100`, `tick = 0.01` does **not** yield
`best_bid = 99.97`, `best_ask = 100.03`, `spread = 0.06`: the seeded touch
is the innermost level pair, not the outermost. -/
theorem c1_counterexample :
    ¬(seededDefault.book.bestBid = some (9997/100) ∧
      seededDefault.book.bestAsk = some (10003/100) ∧
      seededDefault.book.spread = some (6/100)) := by
  decide

/-- **C1** (amended).  The seeded book's actual state: `best_bid = 99.99`,
`best_ask = 100.01`, `spread = 0.02`, `mid = 100.00`, with three levels of
quantity 20 per side at `99.97..99.99` and `100.01..100.03` (best first). -/
theorem c1_seed_scenario :
    seededDefault.book.bestBid = some (9999/100) ∧
    seededDefault.book.bestAsk = some (10001/100) ∧
    seededDefault.book.spread = some (2/100) ∧
    seededDefault.book.midPrice = some 100 ∧
    levelPrices seededDefault.book.bids = [9999/100, 9998/100, 9997/100] ∧
    levelPrices seededDefault.book.asks = [10001/100, 10002/100, 10003/100] ∧
    seededDefault.book.topDepth = (20, 20) := by
  decide

/-- **C8** (counterexample).  In `c8State` every active quote id rests in
the book; after one simulator event — a market buy that fully fills the
agent's only quote, on an event where the refresh cadence does not fire —
the stale id is still in `active_order_ids` although it no longer rests,
so the claimed "exactly the currently-resting own ids" invariant fails
between events. -/
theorem c8_counterexample :
    mmIdsResting c8State = true ∧
    c8State.step.map mmIdsResting = some false := by
  constructor
  · decide
  · decide

theorem wBook_wf : wBook.WF :=
  ⟨by simp [wBook], by simp [wBook], by decide, by decide, by decide,
   by decide, by decide, by decide, by decide, by decide⟩

/-- **C3** (witness): the concrete book `wBook` is well-formed and
uncrossed, and the price-ordering theorem applies to it. -/
theorem c3_price_ordering_witness :
    wBook.WF ∧ wBook.uncrossed ∧
    (∀ o : Order,
      ((wBook.addOrder o).1).uncrossed ∧
      ∀ pb pa, ((wBook.addOrder o).1).bestBid = some pb →
        ((wBook.addOrder o).1).bestAsk = some pa → pb < pa) ∧
    (∀ oid : String,
      ((wBook.cancel oid).1).uncrossed ∧
      ∀ pb pa, ((wBook.cancel oid).1).bestBid = some pb →
        ((wBook.cancel oid).1).bestAsk = some pa → pb < pa) :=
  ⟨wBook_wf, by decide, (c3_price_ordering wBook wBook_wf (by decide)).1,
   (c3_price_ordering wBook wBook_wf (by decide)).2⟩

/-- **C4** (witness): against `wBook`, the crossing buy `wTaker` trades with
the later ask `wOrder3`, so the theorem yields the FIFO decomposition — the
first queued ask `wOrder2` is consumed in full immediately before it. -/
theorem c4_fifo_witness :
    wBook.WF ∧ wTaker.side = Side.BID ∧
    wBook.asks = [] ++ ((101 : ℚ), wOrder2 :: wOrder3 :: []) :: [] ∧
    (∃ t ∈ (wBook.addOrder wTaker).2.2,
      t.maker_order_id = wOrder3.order_id) ∧
    (∃ ts1 ts2 qB,
      (wBook.addOrder wTaker).2.2 =
        ts1 ++ mkTrade wTaker wOrder2 101 wOrder2.qty ::
          mkTrade wTaker wOrder3 101 qB :: ts2 ∧
      ∀ t ∈ ts1, t.maker_order_id ≠ wOrder2.order_id ∧
        t.maker_order_id ≠ wOrder3.order_id) :=
  ⟨wBook_wf, by decide, by decide, by decide,
   c4_fifo_fairness wBook wTaker wOrder2 wOrder3 101 [] [] [] wBook_wf
     (by decide) (by decide) (by decide)⟩

/-- **C5** (witness): cancelling the resting id `"B1"` in `wBook`. -/
theorem c5_cancel_witness :
    wBook.WF ∧
    (((wBook.cancel "B1").2 = true ↔ "B1" ∈ wBook.restingIds) ∧
     ("B1" ∉ wBook.restingIds → wBook.cancel "B1" = (wBook, false)) ∧
     (∀ i, i ∈ (wBook.cancel "B1").1.restingIds ↔
        (i ∈ wBook.restingIds ∧ i ≠ "B1")) ∧
     ("B1" ∈ wBook.restingIds →
        (((wBook.cancel "B1").1).cancel "B1").2 = false)) :=
  ⟨wBook_wf, c5_cancel_semantics wBook "B1" wBook_wf⟩

/-- **C6** (witness): the oversized market buy `wMarket` against `wBook`. -/
theorem c6_market_witness :
    wBook.WF ∧ wMarket.order_type = OrderType.MARKET ∧
    wMarket.side = Side.BID ∧ wMarket.order_id ∉ wBook.restingIds ∧
    ((∀ i ∈ (wBook.addOrder wMarket).1.restingIds, i ∈ wBook.restingIds) ∧
     wMarket.order_id ∉ (wBook.addOrder wMarket).1.restingIds ∧
     (levelsQty wBook.asks ≤ wMarket.qty →
       tradesQty (wBook.addOrder wMarket).2.2 = levelsQty wBook.asks ∧
       (wBook.addOrder wMarket).2.1 = wMarket.qty - levelsQty wBook.asks ∧
       (wBook.addOrder wMarket).1.asks = [])) :=
  ⟨wBook_wf, by decide, by decide, by decide,
   c6_market_exceeding_depth wBook wMarket wBook_wf (by decide)
     (by decide) (by decide)⟩

/-- **C7** (witness): the default market maker on tick `0.01` (which is
`10⁸/10¹⁰`, on the rounding grid) quotes a bid strictly below its ask. -/
theorem c7_quote_witness :
    (0 : ℕ) < 100000000 ∧
    (mmFlat {} (1/100)).tick_size = ((100000000 : ℕ) : ℚ) / 10 ^ 10 ∧
    (((mmFlat {} (1/100)).quotePrices 100 (some (9999/100))
        (some (10001/100))).1 <
      ((mmFlat {} (1/100)).quotePrices 100 (some (9999/100))
        (some (10001/100))).2) :=
  ⟨by decide, by norm_num [mmFlat],
   (c7_quote_clamping (mmFlat {} (1/100)) 100 (some (9999/100))
     (some (10001/100)) 100000000 (by decide) (by norm_num [mmFlat])).1⟩

/-- **C8** (witness of the amended bound): `c8State` has at most two active
ids, and a quote refresh from it again leaves at most two. -/
theorem c8_active_ids_witness :
    c8State.mm.active_order_ids.length ≤ 2 ∧
    c8State.handleMMQuoteUpdate.mm.active_order_ids.length ≤ 2 :=
  ⟨by decide, (c8_active_ids_bound c8State (by decide)).1⟩

/-- **C9** (witness): two runs from the default configuration. -/
theorem c9_determinism_witness :
    ({} : SimulatorConfig) = {} ∧
    (runSim {} 3).snapshots = (runSim {} 3).snapshots :=
  ⟨rfl, (c9_determinism {} {} 3 rfl).1⟩

/-- **C10** (witness): the trades of `wTaker` against `wBook` satisfy the
trade-property theorem. -/
theorem c10_trade_witness :
    wBook.WF ∧
    ((∀ t ∈ (wBook.addOrder wTaker).2.2,
       1 ≤ t.qty ∧ t.taker_order_id = wTaker.order_id ∧
       ∃ l ∈ (match wTaker.side with
         | Side.BID => wBook.asks
         | Side.ASK => wBook.bids : List Level),
         ∃ maker ∈ l.2, t.maker_order_id = maker.order_id ∧
           t.price = l.1 ∧ t.qty ≤ maker.qty) ∧
     tradesQty (wBook.addOrder wTaker).2.2 ≤ wTaker.qty) :=
  ⟨wBook_wf, c10_trade_properties wBook wTaker wBook_wf⟩

end LOBSim
